import Mathlib

/-!
CompleteGraph: the implicit complete graph of `andres/graph/graph-complete.hxx`.

A shallow embedding of `andres::graph::CompleteGraph<VISITOR>` and of its three
cursor classes, followed by theorems about the edge-index bijection, the
neighbour enumeration and the cursor arithmetic.

Modelling conventions.

* `std::size_t` is a 64-bit unsigned integer: a natural number below `2 ^ 64`,
  every `+`, `-`, `*` being taken modulo `2 ^ 64` (`SizeT.add`, `SizeT.sub`,
  `SizeT.mul`); `/` is the truncating division.
* `std::ptrdiff_t` (`difference_type`) is an `Int`; adding it to a `std::size_t`
  converts it to `std::size_t` first, as the usual arithmetic conversions do.
* `assert` is modelled as an error: a member function whose assertion fails
  returns `none`, and `none` is returned for no other reason.
* The conversion of a `float` to `std::size_t` is undefined for a NaN and for a
  value out of range. No assertion guards it: the call goes on and returns.
  `F32.toSizeT` is `none` exactly there, and `vertexOfEdge` then goes on with
  `F32.indefinite`, the result of the x86-64 conversion.
* `float` is IEEE 754 binary32 with round-to-nearest, ties-to-even, each
  operation rounded once (`F32`). The exponent range is not modelled: every
  nonzero value that `vertexOfEdge` computes is a multiple of `2 ^ (-24)` of
  magnitude at most `2 ^ 126`, where binary32 neither overflows nor underflows.
* A `const GraphType*` is an address (`0` is the null pointer) that is looked up
  in a `Heap`.
-/

namespace Andres

/-! ## `std::size_t` arithmetic -/

namespace SizeT

/-- The number of values of `std::size_t`, `2 ^ 64`. -/
def modulus : Nat := 18446744073709551616

/-- Unsigned addition, `a + b` in `std::size_t`. -/
def add (a b : Nat) : Nat := (a + b) % modulus

/-- Unsigned subtraction, `a - b` in `std::size_t`: it wraps around below zero. -/
def sub (a b : Nat) : Nat := (a + (modulus - b % modulus)) % modulus

/-- Unsigned multiplication, `a * b` in `std::size_t`. -/
def mul (a b : Nat) : Nat := (a * b) % modulus

/-- Compound assignment `a += d` of a `std::ptrdiff_t` to a `std::size_t`: the
signed operand is converted to `std::size_t` and the sum is taken modulo
`2 ^ 64`. -/
def addDiff (a : Nat) (d : Int) : Nat := (((a : Int) + d) % (modulus : Int)).toNat

/-- Compound assignment `a -= d` of a `std::ptrdiff_t` to a `std::size_t`. -/
def subDiff (a : Nat) (d : Int) : Nat := (((a : Int) - d) % (modulus : Int)).toNat

end SizeT

/-! ## IEEE 754 binary32 -/

/-- A finite binary floating-point value `m * 2 ^ e`. -/
structure F32 where
  /-- The signed significand. -/
  m : Int
  /-- The exponent of the unit in the last place. -/
  e : Int
deriving DecidableEq, Repr

namespace F32

/-- The number of binary digits of `n`, computed with `fuel` halvings. -/
def bitLengthAux : Nat → Nat → Nat
  | 0, _ => 0
  | fuel + 1, n => if n = 0 then 0 else bitLengthAux fuel (n / 2) + 1

/-- The number of binary digits of `n` (`0` for `n = 0`). -/
def bitLength (n : Nat) : Nat := bitLengthAux n n

/-- Rounding of a natural significand to 24 binary digits, to nearest, ties to
even: the result is the pair of the rounded significand and of the number of
digits dropped. -/
def roundNat (m : Nat) : Nat × Nat :=
  if bitLength m ≤ 24 then (m, 0)
  else
    let s := bitLength m - 24
    let q := m / 2 ^ s
    let r := m % 2 ^ s
    let half := 2 ^ (s - 1)
    if half < r ∨ (r = half ∧ q % 2 = 1) then (q + 1, s) else (q, s)

/-- The binary32 value nearest to `m * 2 ^ e`. -/
def round (m e : Int) : F32 :=
  let qs := roundNat m.natAbs
  ⟨if m < 0 then -(qs.1 : Int) else (qs.1 : Int), e + (qs.2 : Int)⟩

/-- Conversion `static_cast<float>(n)` of a `std::size_t`. -/
def ofNat (n : Nat) : F32 := round (n : Int) 0

/-- Binary32 multiplication `x * y`. -/
def mul (x y : F32) : F32 := round (x.m * y.m) (x.e + y.e)

/-- Binary32 subtraction `x - y`. -/
def sub (x y : F32) : F32 :=
  let e := min x.e y.e
  round (x.m * 2 ^ (x.e - e).toNat - y.m * 2 ^ (y.e - e).toNat) e

/-- Division `x / 2`: exact in binary floating point. -/
def div2 (x : F32) : F32 := ⟨x.m, x.e - 1⟩

/-- One step per binary digit of the integer square root: `r` is the root found
so far, the digit of weight `2 ^ i` is tried next. -/
def isqrtLoop (n : Nat) : Nat → Nat → Nat
  | 0, r => r
  | i + 1, r => isqrtLoop n i (if (r + 2 ^ i) * (r + 2 ^ i) ≤ n then r + 2 ^ i else r)

/-- The integer square root, the largest `r` with `r * r ≤ n`. -/
def isqrt (n : Nat) : Nat := isqrtLoop n (bitLength n / 2 + 1) 0

/-- Binary32 square root `std::sqrt(x)`, correctly rounded; `none` stands for
the NaN of a negative argument. The argument is scaled to `M * 4 ^ t` with
`M ≥ 2 ^ 64`, and the root of `M` is rounded with a sticky digit. -/
def sqrt (x : F32) : Option F32 :=
  if x.m < 0 then none
  else if x.m = 0 then some ⟨0, 0⟩
  else
    let k : Nat := if (x.e - 64) % 2 = 0 then 64 else 65
    let M := x.m.toNat * 2 ^ k
    let t := (x.e - (k : Int)) / 2
    let s := isqrt M
    let N := 2 * s + (if s * s = M then 0 else 1)
    some (round (N : Int) (t - 1))

/-- Conversion `static_cast<std::size_t>(x)`: truncation towards zero; `none`
when the truncated value is not a `std::size_t`, where the conversion is
undefined. -/
def toSizeT (x : F32) : Option Nat :=
  let v := if 0 ≤ x.e then x.m.natAbs * 2 ^ x.e.toNat else x.m.natAbs / 2 ^ (-x.e).toNat
  if x.m < 0 ∧ v ≠ 0 then none
  else if v < SizeT.modulus then some v
  else none

/-- The `std::size_t` that the compiled conversion delivers where
`static_cast<std::size_t>` is undefined: the conversion instruction of x86-64
answers a NaN with the "integer indefinite" value `2 ^ 63`. -/
def indefinite : Nat := 9223372036854775808

end F32

/-! ## The graph -/

/-- Modelled from the spec: the class `Adjacency<>` of `graph.hxx`, "a pair
(neighbor vertex id, connecting edge id)"; `Adjacency<>(v, e)` builds it. -/
structure Adjacency where
  /-- The neighbouring vertex. -/
  vertex : Nat
  /-- The edge that leads to it. -/
  edge : Nat
deriving DecidableEq, Repr

/-- The data members of `CompleteGraph<VISITOR>`. -/
structure CompleteGraph (Visitor : Type) where
  /-- The vertex count, a `std::size_t`. -/
  numberOfVertices_ : Nat
  /-- The visitor, stored and never called by this class. -/
  visitor_ : Visitor

namespace CompleteGraph

variable {Visitor : Type}

/-- Constructor `CompleteGraph(const Visitor&)`. -/
def construct (visitor : Visitor) : CompleteGraph Visitor := ⟨0, visitor⟩

/-- Constructor `CompleteGraph(const std::size_t, const Visitor&)`. -/
def constructN (numberOfVertices : Nat) (visitor : Visitor) : CompleteGraph Visitor :=
  ⟨numberOfVertices, visitor⟩

/-- Member `assign(const Visitor&)`. -/
def assign (_g : CompleteGraph Visitor) (visitor : Visitor) : CompleteGraph Visitor :=
  { numberOfVertices_ := 0, visitor_ := visitor }

/-- Member `assign(const std::size_t, const Visitor&)`. -/
def assignN (_g : CompleteGraph Visitor) (numberOfVertices : Nat) (visitor : Visitor) :
    CompleteGraph Visitor :=
  { numberOfVertices_ := numberOfVertices, visitor_ := visitor }

/-- Member `numberOfVertices()`. -/
def numberOfVertices (g : CompleteGraph Visitor) : Nat := g.numberOfVertices_

/-- Member `numberOfEdges()`: `numberOfVertices() * (numberOfVertices() - 1) / 2`. -/
def numberOfEdges (g : CompleteGraph Visitor) : Nat :=
  SizeT.mul g.numberOfVertices (SizeT.sub g.numberOfVertices 1) / 2

/-- Member `numberOfEdgesFromVertex(vertex)`. -/
def numberOfEdgesFromVertex (g : CompleteGraph Visitor) (vertex : Nat) : Option Nat :=
  if vertex < g.numberOfVertices then some (SizeT.sub g.numberOfVertices 1) else none

/-- Member `numberOfEdgesToVertex(vertex)`. -/
def numberOfEdgesToVertex (g : CompleteGraph Visitor) (vertex : Nat) : Option Nat :=
  if vertex < g.numberOfVertices then some (SizeT.sub g.numberOfVertices 1) else none

/-- Private member `edgeOfStrictlyIncreasingPairOfVertices(vertex0, vertex1)`. -/
def edgeOfStrictlyIncreasingPairOfVertices (g : CompleteGraph Visitor) (vertex0 vertex1 : Nat) :
    Option Nat :=
  if ¬ vertex1 < g.numberOfVertices then none
  else if ¬ vertex0 < vertex1 then none
  else
    some (SizeT.sub
      (SizeT.add
        (SizeT.sub (SizeT.mul (SizeT.sub g.numberOfVertices 1) vertex0)
          (SizeT.mul vertex0 (SizeT.add vertex0 1) / 2))
        vertex1)
      1)

/-- The `float` constant `p` of `vertexOfEdge`:
`static_cast<float>(numberOfVertices() * 2 - 1) / 2`. -/
def floatP (g : CompleteGraph Visitor) : F32 :=
  F32.div2 (F32.ofNat (SizeT.sub (SizeT.mul g.numberOfVertices 2) 1))

/-- The `float` constant `q` of `vertexOfEdge`: `static_cast<float>(edgeIndex) * 2`. -/
def floatQ (edgeIndex : Nat) : F32 := F32.mul (F32.ofNat edgeIndex) (F32.ofNat 2)

/-- The `float` radicand `p * p - q` of `vertexOfEdge(edgeIndex, j)`. -/
def radicandOfEdge (g : CompleteGraph Visitor) (edgeIndex : Nat) : F32 :=
  F32.sub (F32.mul g.floatP g.floatP) (floatQ edgeIndex)

/-- The constant `vertex0` of `vertexOfEdge`:
`static_cast<std::size_t>(p - std::sqrt(p * p - q))`, `none` where the
conversion is undefined: the square root of a negative radicand is a NaN. -/
def vertex0OfEdge (g : CompleteGraph Visitor) (edgeIndex : Nat) : Option Nat :=
  (F32.sqrt (g.radicandOfEdge edgeIndex)).bind (fun root => F32.toSizeT (F32.sub g.floatP root))

/-- The expression that `vertexOfEdge(edgeIndex, 1)` returns once `vertex0` is
known: `edgeIndex + vertex0 * (vertex0 + 1) / 2 - (numberOfVertices() - 1) * vertex0 + 1`. -/
def vertex1OfEdge (g : CompleteGraph Visitor) (edgeIndex vertex0 : Nat) : Nat :=
  SizeT.add
    (SizeT.sub
      (SizeT.add edgeIndex (SizeT.mul vertex0 (SizeT.add vertex0 1) / 2))
      (SizeT.mul (SizeT.sub g.numberOfVertices 1) vertex0))
    1

/-- Member `vertexOfEdge(edgeIndex, j)`: `none` when one of the two assertions
fails. Past them nothing is checked: where the conversion to `vertex0` is
undefined the function still returns, with `F32.indefinite` for `vertex0`. -/
def vertexOfEdge (g : CompleteGraph Visitor) (edgeIndex j : Nat) : Option Nat :=
  if ¬ edgeIndex < g.numberOfEdges then none
  else if ¬ j < 2 then none
  else if j = 0 then some ((g.vertex0OfEdge edgeIndex).getD F32.indefinite)
  else some (g.vertex1OfEdge edgeIndex ((g.vertex0OfEdge edgeIndex).getD F32.indefinite))

/-- Member `edgeFromVertex(vertex, j)`. -/
def edgeFromVertex (g : CompleteGraph Visitor) (vertex j : Nat) : Option Nat :=
  match g.numberOfEdgesFromVertex vertex with
  | none => none
  | some degree =>
    if ¬ j < degree then none
    else if j < vertex then
      g.edgeOfStrictlyIncreasingPairOfVertices j vertex
    else
      g.edgeOfStrictlyIncreasingPairOfVertices vertex (SizeT.add j 1)

/-- Member `edgeToVertex(vertex, j)`. -/
def edgeToVertex (g : CompleteGraph Visitor) (vertex j : Nat) : Option Nat :=
  match g.numberOfEdgesToVertex vertex with
  | none => none
  | some degree => if ¬ j < degree then none else g.edgeFromVertex vertex j

/-- Member `vertexFromVertex(vertex, j)`. -/
def vertexFromVertex (g : CompleteGraph Visitor) (vertex j : Nat) : Option Nat :=
  match g.numberOfEdgesFromVertex vertex with
  | none => none
  | some degree =>
    if ¬ j < degree then none
    else if j < vertex then some j
    else some (SizeT.add j 1)

/-- Member `vertexToVertex(vertex, j)`. -/
def vertexToVertex (g : CompleteGraph Visitor) (vertex j : Nat) : Option Nat :=
  match g.numberOfEdgesToVertex vertex with
  | none => none
  | some degree => if ¬ j < degree then none else g.vertexFromVertex vertex j

/-- Member `adjacencyFromVertex(vertex, j)`. -/
def adjacencyFromVertex (g : CompleteGraph Visitor) (vertex j : Nat) : Option Adjacency :=
  match g.numberOfEdgesToVertex vertex with
  | none => none
  | some degree =>
    if ¬ j < degree then none
    else if j < vertex then
      (g.edgeOfStrictlyIncreasingPairOfVertices j vertex).map (fun edgeAdjacent => ⟨j, edgeAdjacent⟩)
    else
      (g.edgeOfStrictlyIncreasingPairOfVertices vertex (SizeT.add j 1)).map
        (fun edgeAdjacent => ⟨SizeT.add j 1, edgeAdjacent⟩)

/-- Member `adjacencyToVertex(vertex, j)`. -/
def adjacencyToVertex (g : CompleteGraph Visitor) (vertex j : Nat) : Option Adjacency :=
  g.adjacencyFromVertex vertex j

/-- Member `findEdge(vertex0, vertex1)`. -/
def findEdge (g : CompleteGraph Visitor) (vertex0 vertex1 : Nat) : Option (Bool × Nat) :=
  if ¬ vertex0 < g.numberOfVertices then none
  else if ¬ vertex1 < g.numberOfVertices then none
  else if vertex0 = vertex1 then some (false, 0)
  else if vertex0 < vertex1 then
    (g.edgeOfStrictlyIncreasingPairOfVertices vertex0 vertex1).map (fun e => (true, e))
  else
    (g.edgeOfStrictlyIncreasingPairOfVertices vertex1 vertex0).map (fun e => (true, e))

/-- Member `multipleEdgesEnabled()`. -/
def multipleEdgesEnabled (_g : CompleteGraph Visitor) : Bool := false

end CompleteGraph

/-! ## The cursors -/

/-- The `CompleteGraph` objects in memory, by address. -/
abbrev Heap (Visitor : Type) := Nat → Option (CompleteGraph Visitor)

/-- Dereferencing of a `const GraphType*`: the null pointer `0` refers to no
object. -/
def Heap.load {Visitor : Type} (heap : Heap Visitor) (graph : Nat) : Option (CompleteGraph Visitor) :=
  if graph = 0 then none else heap graph

/-- The memory that holds one graph `g`, at the address `address`. -/
def Heap.single {Visitor : Type} (address : Nat) (g : CompleteGraph Visitor) : Heap Visitor :=
  fun a => if a = address then some g else none

/-- The data members of `CompleteGraph::AdjacencyIterator`. -/
structure AdjacencyIterator where
  /-- The address of the graph, `0` when null. -/
  graph_ : Nat
  /-- The vertex whose neighbours are enumerated. -/
  vertex_ : Nat
  /-- The rank of the current neighbour. -/
  adjacencyIndex_ : Nat
deriving DecidableEq, Repr

namespace AdjacencyIterator

variable {Visitor : Type}

/-- Constructor `AdjacencyIterator()`. -/
def construct : AdjacencyIterator := ⟨0, 0, 0⟩

/-- Constructor `AdjacencyIterator(const GraphType&)`. -/
def ofGraph (graph : Nat) : AdjacencyIterator := ⟨graph, 0, 0⟩

/-- Constructor `AdjacencyIterator(const GraphType&, const std::size_t)`. -/
def ofVertex (heap : Heap Visitor) (graph vertex : Nat) : Option AdjacencyIterator :=
  match heap.load graph with
  | none => none
  | some g => if ¬ vertex < g.numberOfVertices then none else some ⟨graph, vertex, 0⟩

/-- Constructor
`AdjacencyIterator(const GraphType&, const std::size_t, const std::size_t)`. -/
def ofVertexIndex (heap : Heap Visitor) (graph vertex adjacencyIndex : Nat) :
    Option AdjacencyIterator :=
  match heap.load graph with
  | none => none
  | some g =>
    if ¬ vertex < g.numberOfVertices then none
    else if ¬ adjacencyIndex ≤ g.numberOfVertices then none
    else some ⟨graph, vertex, adjacencyIndex⟩

/-- The `operator+=`. -/
def plusAssign (it : AdjacencyIterator) (d : Int) : AdjacencyIterator :=
  { it with adjacencyIndex_ := SizeT.addDiff it.adjacencyIndex_ d }

/-- The `operator-=`. -/
def minusAssign (it : AdjacencyIterator) (d : Int) : AdjacencyIterator :=
  { it with adjacencyIndex_ := SizeT.subDiff it.adjacencyIndex_ d }

/-- The `operator++()`. -/
def preIncrement (it : AdjacencyIterator) : AdjacencyIterator :=
  { it with adjacencyIndex_ := SizeT.add it.adjacencyIndex_ 1 }

/-- The `operator--()`. -/
def preDecrement (it : AdjacencyIterator) : AdjacencyIterator :=
  { it with adjacencyIndex_ := SizeT.sub it.adjacencyIndex_ 1 }

/-- The `operator++(int)`: the pair of the returned copy and of the cursor
after the step. -/
def postIncrement (it : AdjacencyIterator) : AdjacencyIterator × AdjacencyIterator :=
  (it, { it with adjacencyIndex_ := SizeT.add it.adjacencyIndex_ 1 })

/-- The `operator--(int)`: the pair of the returned copy and of the cursor
after the step. -/
def postDecrement (it : AdjacencyIterator) : AdjacencyIterator × AdjacencyIterator :=
  (it, { it with adjacencyIndex_ := SizeT.sub it.adjacencyIndex_ 1 })

/-- The `operator+`: a copy advanced with `operator+=`. -/
def plus (it : AdjacencyIterator) (d : Int) : AdjacencyIterator := it.plusAssign d

/-- The `operator-`: a copy moved back with `operator-=`. -/
def minus (it : AdjacencyIterator) (d : Int) : AdjacencyIterator := it.minusAssign d

/-- The `operator==`. -/
def eq (it other : AdjacencyIterator) : Bool :=
  decide (it.adjacencyIndex_ = other.adjacencyIndex_) && decide (it.vertex_ = other.vertex_)
    && decide (it.graph_ = other.graph_)

/-- The `operator!=`. -/
def ne (it other : AdjacencyIterator) : Bool :=
  decide (it.adjacencyIndex_ ≠ other.adjacencyIndex_) || decide (it.vertex_ ≠ other.vertex_)
    || decide (it.graph_ ≠ other.graph_)

/-- The `operator<`. -/
def lt (it other : AdjacencyIterator) : Bool :=
  decide (it.adjacencyIndex_ < other.adjacencyIndex_) && decide (it.vertex_ = other.vertex_)
    && decide (it.graph_ = other.graph_)

/-- The `operator<=`. -/
def le (it other : AdjacencyIterator) : Bool :=
  decide (it.adjacencyIndex_ ≤ other.adjacencyIndex_) && decide (it.vertex_ = other.vertex_)
    && decide (it.graph_ = other.graph_)

/-- The `operator>`. -/
def gt (it other : AdjacencyIterator) : Bool :=
  decide (it.adjacencyIndex_ > other.adjacencyIndex_) && decide (it.vertex_ = other.vertex_)
    && decide (it.graph_ = other.graph_)

/-- The `operator>=`. -/
def ge (it other : AdjacencyIterator) : Bool :=
  decide (it.adjacencyIndex_ ≥ other.adjacencyIndex_) && decide (it.vertex_ = other.vertex_)
    && decide (it.graph_ = other.graph_)

/-- The `operator*`. -/
def deref (heap : Heap Visitor) (it : AdjacencyIterator) : Option Adjacency :=
  match heap.load it.graph_ with
  | none => none
  | some g => g.adjacencyFromVertex it.vertex_ it.adjacencyIndex_

/-- The `operator[]`. -/
def index (heap : Heap Visitor) (it : AdjacencyIterator) (j : Nat) : Option Adjacency :=
  match heap.load it.graph_ with
  | none => none
  | some g => g.adjacencyFromVertex it.vertex_ (SizeT.add it.adjacencyIndex_ j)

end AdjacencyIterator

/-- The class `CompleteGraph::VertexIterator`, derived from `AdjacencyIterator`
without a data member of its own. -/
structure VertexIterator extends AdjacencyIterator
deriving DecidableEq, Repr

namespace VertexIterator

variable {Visitor : Type}

/-- Constructor `VertexIterator()`. -/
def construct : VertexIterator := ⟨AdjacencyIterator.construct⟩

/-- Constructor `VertexIterator(const GraphType&)`. -/
def ofGraph (graph : Nat) : VertexIterator := ⟨AdjacencyIterator.ofGraph graph⟩

/-- Constructor `VertexIterator(const GraphType&, const std::size_t)`. -/
def ofVertex (heap : Heap Visitor) (graph vertex : Nat) : Option VertexIterator :=
  (AdjacencyIterator.ofVertex heap graph vertex).map (fun base => ⟨base⟩)

/-- Constructor
`VertexIterator(const GraphType&, const std::size_t, const std::size_t)`. -/
def ofVertexIndex (heap : Heap Visitor) (graph vertex adjacencyIndex : Nat) :
    Option VertexIterator :=
  (AdjacencyIterator.ofVertexIndex heap graph vertex adjacencyIndex).map (fun base => ⟨base⟩)

/-- Constructor `VertexIterator(const VertexIterator&)`, which goes through the
three-argument constructor of the base class. -/
def copy (heap : Heap Visitor) (it : VertexIterator) : Option VertexIterator :=
  (AdjacencyIterator.ofVertexIndex heap it.graph_ it.vertex_ it.adjacencyIndex_).map
    (fun base => ⟨base⟩)

/-- Constructor `VertexIterator(const AdjacencyIterator&)`, which copies the
base class. -/
def ofAdjacencyIterator (it : AdjacencyIterator) : VertexIterator := ⟨it⟩

/-- The inherited `operator+=`, applied to a `VertexIterator` object. -/
def plusAssign (it : VertexIterator) (d : Int) : VertexIterator :=
  ⟨it.toAdjacencyIterator.plusAssign d⟩

/-- The inherited `operator+`: its result is an `AdjacencyIterator`. -/
def plus (it : VertexIterator) (d : Int) : AdjacencyIterator := it.toAdjacencyIterator.plus d

/-- The `operator*`. -/
def deref (heap : Heap Visitor) (it : VertexIterator) : Option Nat :=
  match heap.load it.graph_ with
  | none => none
  | some g => g.vertexFromVertex it.vertex_ it.adjacencyIndex_

/-- The `operator[]`. -/
def index (heap : Heap Visitor) (it : VertexIterator) (j : Nat) : Option Nat :=
  match heap.load it.graph_ with
  | none => none
  | some g => g.vertexFromVertex it.vertex_ (SizeT.add it.adjacencyIndex_ j)

end VertexIterator

/-- The class `CompleteGraph::EdgeIterator`, derived from `AdjacencyIterator`
without a data member of its own. -/
structure EdgeIterator extends AdjacencyIterator
deriving DecidableEq, Repr

namespace EdgeIterator

variable {Visitor : Type}

/-- Constructor `EdgeIterator()`. -/
def construct : EdgeIterator := ⟨AdjacencyIterator.construct⟩

/-- Constructor `EdgeIterator(const GraphType&)`. -/
def ofGraph (graph : Nat) : EdgeIterator := ⟨AdjacencyIterator.ofGraph graph⟩

/-- Constructor `EdgeIterator(const GraphType&, const std::size_t)`. -/
def ofVertex (heap : Heap Visitor) (graph vertex : Nat) : Option EdgeIterator :=
  (AdjacencyIterator.ofVertex heap graph vertex).map (fun base => ⟨base⟩)

/-- Constructor
`EdgeIterator(const GraphType&, const std::size_t, const std::size_t)`. -/
def ofVertexIndex (heap : Heap Visitor) (graph vertex adjacencyIndex : Nat) :
    Option EdgeIterator :=
  (AdjacencyIterator.ofVertexIndex heap graph vertex adjacencyIndex).map (fun base => ⟨base⟩)

/-- Constructor `EdgeIterator(const EdgeIterator&)`, which goes through the
three-argument constructor of the base class. -/
def copy (heap : Heap Visitor) (it : EdgeIterator) : Option EdgeIterator :=
  (AdjacencyIterator.ofVertexIndex heap it.graph_ it.vertex_ it.adjacencyIndex_).map
    (fun base => ⟨base⟩)

/-- Constructor `EdgeIterator(const AdjacencyIterator&)`, which copies the base
class. -/
def ofAdjacencyIterator (it : AdjacencyIterator) : EdgeIterator := ⟨it⟩

/-- The inherited `operator+=`, applied to an `EdgeIterator` object. -/
def plusAssign (it : EdgeIterator) (d : Int) : EdgeIterator :=
  ⟨it.toAdjacencyIterator.plusAssign d⟩

/-- The inherited `operator+`: its result is an `AdjacencyIterator`. -/
def plus (it : EdgeIterator) (d : Int) : AdjacencyIterator := it.toAdjacencyIterator.plus d

/-- The `operator*`. -/
def deref (heap : Heap Visitor) (it : EdgeIterator) : Option Nat :=
  match heap.load it.graph_ with
  | none => none
  | some g => g.edgeFromVertex it.vertex_ it.adjacencyIndex_

/-- The `operator[]`. -/
def index (heap : Heap Visitor) (it : EdgeIterator) (j : Nat) : Option Nat :=
  match heap.load it.graph_ with
  | none => none
  | some g => g.edgeFromVertex it.vertex_ (SizeT.add it.adjacencyIndex_ j)

end EdgeIterator

/-! ## The range factories -/

namespace CompleteGraph

variable {Visitor : Type}

/-- Member `verticesFromVertexBegin(vertex)` of the graph at the address `this`. -/
def verticesFromVertexBegin (heap : Heap Visitor) (this vertex : Nat) : Option VertexIterator :=
  VertexIterator.ofVertexIndex heap this vertex 0

/-- Member `verticesFromVertexEnd(vertex)` of the graph at the address `this`. -/
def verticesFromVertexEnd (heap : Heap Visitor) (this vertex : Nat) : Option VertexIterator :=
  match heap.load this with
  | none => none
  | some g =>
    match g.numberOfEdgesFromVertex vertex with
    | none => none
    | some degree => VertexIterator.ofVertexIndex heap this vertex degree

/-- Member `verticesToVertexBegin(vertex)` of the graph at the address `this`. -/
def verticesToVertexBegin (heap : Heap Visitor) (this vertex : Nat) : Option VertexIterator :=
  VertexIterator.ofVertexIndex heap this vertex 0

/-- Member `verticesToVertexEnd(vertex)` of the graph at the address `this`. -/
def verticesToVertexEnd (heap : Heap Visitor) (this vertex : Nat) : Option VertexIterator :=
  match heap.load this with
  | none => none
  | some g =>
    match g.numberOfEdgesFromVertex vertex with
    | none => none
    | some degree => VertexIterator.ofVertexIndex heap this vertex degree

/-- Member `edgesFromVertexBegin(vertex)` of the graph at the address `this`. -/
def edgesFromVertexBegin (heap : Heap Visitor) (this vertex : Nat) : Option EdgeIterator :=
  EdgeIterator.ofVertexIndex heap this vertex 0

/-- Member `edgesFromVertexEnd(vertex)` of the graph at the address `this`. -/
def edgesFromVertexEnd (heap : Heap Visitor) (this vertex : Nat) : Option EdgeIterator :=
  match heap.load this with
  | none => none
  | some g =>
    match g.numberOfEdgesFromVertex vertex with
    | none => none
    | some degree => EdgeIterator.ofVertexIndex heap this vertex degree

/-- Member `edgesToVertexBegin(vertex)` of the graph at the address `this`. -/
def edgesToVertexBegin (heap : Heap Visitor) (this vertex : Nat) : Option EdgeIterator :=
  EdgeIterator.ofVertexIndex heap this vertex 0

/-- Member `edgesToVertexEnd(vertex)` of the graph at the address `this`. -/
def edgesToVertexEnd (heap : Heap Visitor) (this vertex : Nat) : Option EdgeIterator :=
  match heap.load this with
  | none => none
  | some g =>
    match g.numberOfEdgesFromVertex vertex with
    | none => none
    | some degree => EdgeIterator.ofVertexIndex heap this vertex degree

/-- Member `adjacenciesFromVertexBegin(vertex)` of the graph at the address
`this`. -/
def adjacenciesFromVertexBegin (heap : Heap Visitor) (this vertex : Nat) :
    Option AdjacencyIterator :=
  AdjacencyIterator.ofVertexIndex heap this vertex 0

/-- Member `adjacenciesFromVertexEnd(vertex)` of the graph at the address
`this`. -/
def adjacenciesFromVertexEnd (heap : Heap Visitor) (this vertex : Nat) :
    Option AdjacencyIterator :=
  match heap.load this with
  | none => none
  | some g =>
    match g.numberOfEdgesFromVertex vertex with
    | none => none
    | some degree => AdjacencyIterator.ofVertexIndex heap this vertex degree

/-- Member `adjacenciesToVertexBegin(vertex)` of the graph at the address
`this`. -/
def adjacenciesToVertexBegin (heap : Heap Visitor) (this vertex : Nat) :
    Option AdjacencyIterator :=
  AdjacencyIterator.ofVertexIndex heap this vertex 0

/-- Member `adjacenciesToVertexEnd(vertex)` of the graph at the address
`this`. -/
def adjacenciesToVertexEnd (heap : Heap Visitor) (this vertex : Nat) :
    Option AdjacencyIterator :=
  match heap.load this with
  | none => none
  | some g =>
    match g.numberOfEdgesFromVertex vertex with
    | none => none
    | some degree => AdjacencyIterator.ofVertexIndex heap this vertex degree

end CompleteGraph

/-! ## The inherited cursor arithmetic -/

namespace VertexIterator

/-- The inherited `operator-=`, applied to a `VertexIterator` object. -/
def minusAssign (it : VertexIterator) (d : Int) : VertexIterator :=
  ⟨it.toAdjacencyIterator.minusAssign d⟩

/-- The inherited `operator++()`, applied to a `VertexIterator` object. -/
def preIncrement (it : VertexIterator) : VertexIterator :=
  ⟨it.toAdjacencyIterator.preIncrement⟩

/-- The inherited `operator--()`, applied to a `VertexIterator` object. -/
def preDecrement (it : VertexIterator) : VertexIterator :=
  ⟨it.toAdjacencyIterator.preDecrement⟩

/-- The inherited `operator++(int)`, applied to a `VertexIterator` object: the
returned copy is an `AdjacencyIterator`. -/
def postIncrement (it : VertexIterator) : AdjacencyIterator × VertexIterator :=
  (it.toAdjacencyIterator.postIncrement.1, ⟨it.toAdjacencyIterator.postIncrement.2⟩)

/-- The inherited `operator--(int)`, applied to a `VertexIterator` object: the
returned copy is an `AdjacencyIterator`. -/
def postDecrement (it : VertexIterator) : AdjacencyIterator × VertexIterator :=
  (it.toAdjacencyIterator.postDecrement.1, ⟨it.toAdjacencyIterator.postDecrement.2⟩)

/-- The inherited `operator-`: its result is an `AdjacencyIterator`. -/
def minus (it : VertexIterator) (d : Int) : AdjacencyIterator := it.toAdjacencyIterator.minus d

end VertexIterator

namespace EdgeIterator

/-- The inherited `operator-=`, applied to an `EdgeIterator` object. -/
def minusAssign (it : EdgeIterator) (d : Int) : EdgeIterator :=
  ⟨it.toAdjacencyIterator.minusAssign d⟩

/-- The inherited `operator++()`, applied to an `EdgeIterator` object. -/
def preIncrement (it : EdgeIterator) : EdgeIterator :=
  ⟨it.toAdjacencyIterator.preIncrement⟩

/-- The inherited `operator--()`, applied to an `EdgeIterator` object. -/
def preDecrement (it : EdgeIterator) : EdgeIterator :=
  ⟨it.toAdjacencyIterator.preDecrement⟩

/-- The inherited `operator++(int)`, applied to an `EdgeIterator` object: the
returned copy is an `AdjacencyIterator`. -/
def postIncrement (it : EdgeIterator) : AdjacencyIterator × EdgeIterator :=
  (it.toAdjacencyIterator.postIncrement.1, ⟨it.toAdjacencyIterator.postIncrement.2⟩)

/-- The inherited `operator--(int)`, applied to an `EdgeIterator` object: the
returned copy is an `AdjacencyIterator`. -/
def postDecrement (it : EdgeIterator) : AdjacencyIterator × EdgeIterator :=
  (it.toAdjacencyIterator.postDecrement.1, ⟨it.toAdjacencyIterator.postDecrement.2⟩)

/-- The inherited `operator-`: its result is an `AdjacencyIterator`. -/
def minus (it : EdgeIterator) (d : Int) : AdjacencyIterator := it.toAdjacencyIterator.minus d

end EdgeIterator

/-- Modelled from the spec: a visitor (the class is a template parameter,
`IdleGraphVisitor` of `graph.hxx` by default) that keeps the "vertex count
changed" events it has received. -/
structure RecordingVisitor where
  /-- The vertex counts announced so far, oldest first. -/
  events : List Nat
deriving DecidableEq, Repr

/-- Modelled from the spec: the structural-change hook, "the only structural
event this graph ever produces is vertex count changed"; receiving it appends
the new vertex count. -/
def RecordingVisitor.vertexCountChanged (visitor : RecordingVisitor) (numberOfVertices : Nat) :
    RecordingVisitor :=
  ⟨visitor.events ++ [numberOfVertices]⟩

/-! ## The subtractions of the edge index -/

namespace CompleteGraph

variable {Visitor : Type}

/-- No unsigned subtraction of
`edgeOfStrictlyIncreasingPairOfVertices(vertex0, vertex1)` goes below zero:
`numberOfVertices() - 1`, the subtraction of `vertex0 * (vertex0 + 1) / 2` from
the product, and the last `- 1`, each on the `std::size_t` values that the code
has at that step. -/
def edgeIndexSubtractionsInRange (g : CompleteGraph Visitor) (vertex0 vertex1 : Nat) : Prop :=
  1 ≤ g.numberOfVertices ∧
  SizeT.mul vertex0 (SizeT.add vertex0 1) / 2
    ≤ SizeT.mul (SizeT.sub g.numberOfVertices 1) vertex0 ∧
  1 ≤ SizeT.add
    (SizeT.sub (SizeT.mul (SizeT.sub g.numberOfVertices 1) vertex0)
      (SizeT.mul vertex0 (SizeT.add vertex0 1) / 2))
    vertex1

instance edgeIndexSubtractionsInRangeDecidable (g : CompleteGraph Visitor) (vertex0 vertex1 : Nat) :
    Decidable (g.edgeIndexSubtractionsInRange vertex0 vertex1) := by
  unfold edgeIndexSubtractionsInRange
  infer_instance

end CompleteGraph

/-! ## Specification-side definitions -/

/-- The closed form of the edge index over the natural numbers,
`(n - 1) * v0 - v0 * (v0 + 1) / 2 + v1 - 1`. -/
def pairIndex (n v0 v1 : Nat) : Nat := (n - 1) * v0 - v0 * (v0 + 1) / 2 + v1 - 1

/-- The pairs `(a, b)` with `a < b < n`. -/
def pairs (n : Nat) : Finset (Nat × Nat) :=
  (Finset.range n ×ˢ Finset.range n).filter (fun p => p.1 < p.2)

/-- The lexicographic order of pairs: `p` comes before `q`. -/
def lexLt (p q : Nat × Nat) : Prop := p.1 < q.1 ∨ (p.1 = q.1 ∧ p.2 < q.2)

instance lexLtDecidable (p q : Nat × Nat) : Decidable (lexLt p q) := by
  unfold lexLt
  infer_instance

/-- The pairs `(a, b)` with `a < b < n` that come before `(v0, v1)` in the
lexicographic order. -/
def pairsBefore (n v0 v1 : Nat) : Finset (Nat × Nat) :=
  (pairs n).filter (fun p => lexLt p (v0, v1))

/-- The list `0, 1, ..., n - 1` without `v`, ascending. -/
def others (n v : Nat) : List Nat := (List.range n).filter (fun u => u ≠ v)

/-! ## The closed form over the natural numbers -/

set_option maxRecDepth 1000000

variable {Visitor : Type}

theorem two_mul_half_mul_succ (v : Nat) : 2 * (v * (v + 1) / 2) = v * (v + 1) := by
  have h : 2 ∣ v * (v + 1) := (Nat.even_mul_succ_self v).two_dvd
  omega

theorem half_mul_succ_le (n v0 v1 : Nat) (h01 : v0 < v1) (h1 : v1 < n) :
    v0 * (v0 + 1) / 2 ≤ (n - 1) * v0 := by
  have h2 : v0 * (v0 + 1) ≤ (n - 1) * v0 := by
    rw [Nat.mul_comm (n - 1) v0]
    exact Nat.mul_le_mul_left v0 (by omega)
  exact le_trans (Nat.div_le_self _ _) h2

theorem pairIndex_add (n v0 v1 : Nat) (h01 : v0 < v1) (h1 : v1 < n) :
    pairIndex n v0 v1 + v0 * (v0 + 1) / 2 + 1 = (n - 1) * v0 + v1 := by
  have h := half_mul_succ_le n v0 v1 h01 h1
  unfold pairIndex
  omega

theorem two_mul_pairIndex (n v0 v1 : Nat) (h01 : v0 < v1) (h1 : v1 < n) :
    (2 : Int) * pairIndex n v0 v1 = v0 * (2 * n - 3 - v0) + 2 * v1 - 2 := by
  have h := pairIndex_add n v0 v1 h01 h1
  have ht := two_mul_half_mul_succ v0
  have hn : ((n - 1 : Nat) : Int) = (n : Int) - 1 := by omega
  zify at h ht
  rw [hn] at h
  nlinarith

theorem pairIndex_lt_of_lexLt (n v0 v1 w0 w1 : Nat) (h01 : v0 < v1) (h1 : v1 < n)
    (k01 : w0 < w1) (k1 : w1 < n) (hlt : v0 < w0 ∨ (v0 = w0 ∧ v1 < w1)) :
    pairIndex n v0 v1 < pairIndex n w0 w1 := by
  have hv := two_mul_pairIndex n v0 v1 h01 h1
  have hw := two_mul_pairIndex n w0 w1 k01 k1
  rcases hlt with h | ⟨h, h'⟩
  · have a1 : (0 : Int) ≤ (w0 : Int) - v0 - 1 := by omega
    have a2 : (0 : Int) ≤ 2 * (n : Int) - 2 - w0 - v0 - 1 := by omega
    have a3 := mul_nonneg a1 a2
    have b1 : (v1 : Int) ≤ n - 1 := by omega
    have b2 : (w0 : Int) + 1 ≤ w1 := by omega
    have : (2 : Int) * pairIndex n v0 v1 < 2 * pairIndex n w0 w1 := by nlinarith
    omega
  · subst h
    have : (2 : Int) * pairIndex n v0 v1 < 2 * pairIndex n v0 w1 := by
      rw [hv, hw]; omega
    omega

theorem pairIndex_lt_card (n v0 v1 : Nat) (h01 : v0 < v1) (h1 : v1 < n) :
    pairIndex n v0 v1 < n * (n - 1) / 2 := by
  have hv := two_mul_pairIndex n v0 v1 h01 h1
  have a1 : (0 : Int) ≤ (n : Int) - v0 - 1 - 1 := by omega
  have a2 : (0 : Int) ≤ (n : Int) - v0 - 2 - 1 + 1 := by omega
  have a3 := mul_nonneg a1 a2
  have hn : ((n - 1 : Nat) : Int) = (n : Int) - 1 := by omega
  have h2 : (2 : Int) * pairIndex n v0 v1 + 2 ≤ n * ((n - 1 : Nat) : Int) := by
    rw [hn]; nlinarith
  have h3 : 2 * pairIndex n v0 v1 + 2 ≤ n * (n - 1) := by exact_mod_cast h2
  omega

theorem exists_pairIndex_eq (n : Nat) (a : Nat) (ha : a + 1 ≤ n) (e : Nat)
    (he : e + a * (a + 1) / 2 < (n - 1) * a + a) :
    ∃ v0 v1, v0 < v1 ∧ v1 < n ∧ v0 < a ∧ pairIndex n v0 v1 = e := by
  induction a with
  | zero => simp at he
  | succ a ih =>
    by_cases hlt : e + a * (a + 1) / 2 < (n - 1) * a + a
    · obtain ⟨v0, v1, h1, h2, h3, h4⟩ := ih (by omega) hlt
      exact ⟨v0, v1, h1, h2, by omega, h4⟩
    · have ht1 := two_mul_half_mul_succ a
      have ht2 := two_mul_half_mul_succ (a + 1)
      have e1 : (a + 1) * (a + 1 + 1) = a * (a + 1) + 2 * (a + 1) := by ring
      have e2 : (n - 1) * (a + 1) = (n - 1) * a + (n - 1) := by ring
      have hle := half_mul_succ_le n a (a + 1) (by omega) (by omega)
      refine ⟨a, e + a * (a + 1) / 2 + 1 - (n - 1) * a, by omega, by omega, by omega, ?_⟩
      have := pairIndex_add n a (e + a * (a + 1) / 2 + 1 - (n - 1) * a) (by omega) (by omega)
      omega

theorem exists_pairIndex_of_lt (n e : Nat) (he : e < n * (n - 1) / 2) :
    ∃ v0 v1, v0 < v1 ∧ v1 < n ∧ pairIndex n v0 v1 = e := by
  have hn : 2 ≤ n := by
    by_contra hcon
    have h01 : n = 0 ∨ n = 1 := by omega
    rcases h01 with h | h <;> subst h <;> simp at he
  have ht := two_mul_half_mul_succ (n - 1)
  have e1 : n - 1 + 1 = n := by omega
  rw [e1] at ht
  have e2 : n * (n - 1) = (n - 1) * n := Nat.mul_comm _ _
  have e3 : (n - 1) * n = (n - 1) * (n - 1) + (n - 1) := by
    nth_rewrite 2 [← e1]
    ring
  obtain ⟨v0, v1, h1, h2, _, h4⟩ :=
    exists_pairIndex_eq n (n - 1) (by omega) e (by rw [e1]; omega)
  exact ⟨v0, v1, h1, h2, h4⟩

theorem mem_pairs (n : Nat) (p : Nat × Nat) : p ∈ pairs n ↔ p.1 < p.2 ∧ p.2 < n := by
  unfold pairs
  simp only [Finset.mem_filter, Finset.mem_product, Finset.mem_range]
  omega

theorem pairIndex_injective (n v0 v1 w0 w1 : Nat) (h01 : v0 < v1) (h1 : v1 < n)
    (k01 : w0 < w1) (k1 : w1 < n) (heq : pairIndex n v0 v1 = pairIndex n w0 w1) :
    v0 = w0 ∧ v1 = w1 := by
  by_contra hne
  have hcases : (v0 < w0 ∨ (v0 = w0 ∧ v1 < w1)) ∨ (w0 < v0 ∨ (w0 = v0 ∧ w1 < v1)) := by omega
  rcases hcases with h | h
  · have := pairIndex_lt_of_lexLt n v0 v1 w0 w1 h01 h1 k01 k1 h
    omega
  · have := pairIndex_lt_of_lexLt n w0 w1 v0 v1 k01 k1 h01 h1 h
    omega

theorem card_pairs (n : Nat) : (pairs n).card = n * (n - 1) / 2 := by
  rw [← Finset.card_range (n * (n - 1) / 2)]
  refine Finset.card_bij (fun p _ => pairIndex n p.1 p.2) ?_ ?_ ?_
  · intro p hp
    rw [mem_pairs] at hp
    exact Finset.mem_range.mpr (pairIndex_lt_card n p.1 p.2 hp.1 hp.2)
  · intro p hp q hq heq
    rw [mem_pairs] at hp hq
    have := pairIndex_injective n p.1 p.2 q.1 q.2 hp.1 hp.2 hq.1 hq.2 heq
    exact Prod.ext this.1 this.2
  · intro e he
    obtain ⟨v0, v1, h1, h2, h3⟩ := exists_pairIndex_of_lt n e (Finset.mem_range.mp he)
    exact ⟨(v0, v1), (mem_pairs n _).mpr ⟨h1, h2⟩, h3⟩

theorem card_pairsBefore (n v0 v1 : Nat) (h01 : v0 < v1) (h1 : v1 < n) :
    (pairsBefore n v0 v1).card = pairIndex n v0 v1 := by
  rw [← Finset.card_range (pairIndex n v0 v1)]
  refine Finset.card_bij (fun p _ => pairIndex n p.1 p.2) ?_ ?_ ?_
  · intro p hp
    simp only [pairsBefore, Finset.mem_filter, mem_pairs, lexLt] at hp
    exact Finset.mem_range.mpr (pairIndex_lt_of_lexLt n p.1 p.2 v0 v1 hp.1.1 hp.1.2 h01 h1 hp.2)
  · intro p hp q hq heq
    simp only [pairsBefore, Finset.mem_filter, mem_pairs] at hp hq
    have := pairIndex_injective n p.1 p.2 q.1 q.2 hp.1.1 hp.1.2 hq.1.1 hq.1.2 heq
    exact Prod.ext this.1 this.2
  · intro e he
    have he' := Finset.mem_range.mp he
    have hN := pairIndex_lt_card n v0 v1 h01 h1
    obtain ⟨w0, w1, k1, k2, k3⟩ := exists_pairIndex_of_lt n e (by omega)
    refine ⟨(w0, w1), ?_, k3⟩
    simp only [pairsBefore, Finset.mem_filter, mem_pairs, lexLt]
    refine ⟨⟨k1, k2⟩, ?_⟩
    by_contra hnot
    have hcases : (w0 = v0 ∧ w1 = v1) ∨ (v0 < w0 ∨ (v0 = w0 ∧ v1 < w1)) := by omega
    rcases hcases with ⟨h, h'⟩ | h
    · subst h; subst h'; omega
    · have := pairIndex_lt_of_lexLt n v0 v1 w0 w1 h01 h1 k1 k2 h
      omega

/-! ## No wrap-around up to `2 ^ 32` vertices -/

namespace SizeT

theorem sizeT_sub_one_eq (n : Nat) (h0 : 0 < n) (hn : n < modulus) : sub n 1 = n - 1 := by
  unfold sub modulus at *
  omega

theorem sizeT_add_eq (a b : Nat) (h : a + b < modulus) : add a b = a + b :=
  Nat.mod_eq_of_lt h

theorem sizeT_mul_eq (a b : Nat) (h : a * b < modulus) : mul a b = a * b :=
  Nat.mod_eq_of_lt h

theorem sizeT_sub_eq (a b : Nat) (hba : b ≤ a) (ha : a < modulus) : sub a b = a - b := by
  unfold sub modulus at *
  omega

end SizeT

namespace CompleteGraph

variable {Visitor : Type}

/-- Up to `2 ^ 32 + 1` vertices no step of the index formula wraps around. -/
theorem edgeOfStrictlyIncreasingPairOfVertices_eq (g : CompleteGraph Visitor) (v0 v1 : Nat)
    (hn : g.numberOfVertices_ ≤ 4294967297) (h01 : v0 < v1) (h1 : v1 < g.numberOfVertices_) :
    g.edgeOfStrictlyIncreasingPairOfVertices v0 v1 = some (pairIndex g.numberOfVertices_ v0 v1) := by
  obtain ⟨n, vis⟩ := g
  simp only at hn h1
  have hA : (n - 1) * v0 ≤ 4294967296 * 4294967295 := Nat.mul_le_mul (by omega) (by omega)
  have hB : v0 * (v0 + 1) ≤ 4294967295 * 4294967296 := Nat.mul_le_mul (by omega) (by omega)
  have hC : (n - 2) * v0 ≤ 4294967295 * 4294967295 := Nat.mul_le_mul (by omega) (by omega)
  have hD : (n - 1) * v0 = (n - 2) * v0 + v0 := by
    have : n - 1 = (n - 2) + 1 := by omega
    rw [this]; ring
  have hT := half_mul_succ_le n v0 v1 h01 h1
  have hT2 := two_mul_half_mul_succ v0
  have hE : v0 ≤ v0 * v0 := Nat.le_mul_self v0
  have hF : v0 * (v0 + 1) = v0 * v0 + v0 := by ring
  have hP := pairIndex_add n v0 v1 h01 h1
  have s1 : SizeT.sub n 1 = n - 1 := SizeT.sizeT_sub_one_eq n (by omega) (by unfold SizeT.modulus; omega)
  have s2 : SizeT.mul (n - 1) v0 = (n - 1) * v0 :=
    SizeT.sizeT_mul_eq _ _ (by unfold SizeT.modulus; omega)
  have s3 : SizeT.add v0 1 = v0 + 1 := SizeT.sizeT_add_eq _ _ (by unfold SizeT.modulus; omega)
  have s4 : SizeT.mul v0 (v0 + 1) = v0 * (v0 + 1) :=
    SizeT.sizeT_mul_eq _ _ (by unfold SizeT.modulus; omega)
  have s5 : SizeT.sub ((n - 1) * v0) (v0 * (v0 + 1) / 2) = (n - 1) * v0 - v0 * (v0 + 1) / 2 :=
    SizeT.sizeT_sub_eq _ _ hT (by unfold SizeT.modulus; omega)
  have s6 : SizeT.add ((n - 1) * v0 - v0 * (v0 + 1) / 2) v1
      = (n - 1) * v0 - v0 * (v0 + 1) / 2 + v1 :=
    SizeT.sizeT_add_eq _ _ (by unfold SizeT.modulus; omega)
  have s7 : SizeT.sub ((n - 1) * v0 - v0 * (v0 + 1) / 2 + v1) 1
      = (n - 1) * v0 - v0 * (v0 + 1) / 2 + v1 - 1 :=
    SizeT.sizeT_sub_eq _ _ (by omega) (by unfold SizeT.modulus; omega)
  simp only [edgeOfStrictlyIncreasingPairOfVertices, numberOfVertices, h1, h01, not_true_eq_false,
    if_false, s1, s2, s3, s4, s5, s6, s7, pairIndex]

theorem numberOfEdges_eq (g : CompleteGraph Visitor) (hn : g.numberOfVertices_ ≤ 4294967296) :
    g.numberOfEdges = g.numberOfVertices_ * (g.numberOfVertices_ - 1) / 2 := by
  obtain ⟨n, vis⟩ := g
  simp only at hn
  rcases Nat.eq_zero_or_pos n with h0 | h0
  · subst h0; simp [numberOfEdges, numberOfVertices, SizeT.mul]
  · have hA : n * (n - 1) ≤ 4294967296 * 4294967295 := Nat.mul_le_mul (by omega) (by omega)
    have s1 : SizeT.sub n 1 = n - 1 := SizeT.sizeT_sub_one_eq n h0 (by unfold SizeT.modulus; omega)
    have s2 : SizeT.mul n (n - 1) = n * (n - 1) :=
      SizeT.sizeT_mul_eq _ _ (by unfold SizeT.modulus; omega)
    simp only [numberOfEdges, numberOfVertices, s1, s2]

end CompleteGraph

/-! ## The binary32 model -/

namespace F32

theorem lt_two_pow_bitLengthAux (fuel n : Nat) (h : n ≤ fuel) : n < 2 ^ bitLengthAux fuel n := by
  induction fuel generalizing n with
  | zero =>
    have : n = 0 := by omega
    subst this
    simp [bitLengthAux]
  | succ fuel ih =>
    unfold bitLengthAux
    by_cases h0 : n = 0
    · simp [h0]
    · simp only [h0, if_false]
      have := ih (n / 2) (by omega)
      rw [pow_succ]
      omega

/-- The model `bitLength`: `n` has at most `bitLength n` binary digits. -/
theorem lt_two_pow_bitLength (n : Nat) : n < 2 ^ bitLength n :=
  lt_two_pow_bitLengthAux n n le_rfl

theorem isqrtLoop_spec (n i r : Nat) (h1 : r * r ≤ n) (h2 : n < (r + 2 ^ i) * (r + 2 ^ i)) :
    isqrtLoop n i r * isqrtLoop n i r ≤ n ∧
      n < (isqrtLoop n i r + 1) * (isqrtLoop n i r + 1) := by
  induction i generalizing r with
  | zero => simpa [isqrtLoop] using ⟨h1, h2⟩
  | succ i ih =>
    unfold isqrtLoop
    have e : r + 2 ^ (i + 1) = r + 2 ^ i + 2 ^ i := by rw [pow_succ]; omega
    by_cases hc : (r + 2 ^ i) * (r + 2 ^ i) ≤ n
    · simp only [hc, if_true]
      exact ih (r + 2 ^ i) hc (by rw [← e]; exact h2)
    · simp only [hc, if_false]
      exact ih r h1 (by omega)

/-- The model `isqrt` is the integer square root. -/
theorem isqrt_spec (n : Nat) : isqrt n * isqrt n ≤ n ∧ n < (isqrt n + 1) * (isqrt n + 1) := by
  unfold isqrt
  apply isqrtLoop_spec n _ 0 (by simp)
  have h := lt_two_pow_bitLength n
  have h2 : 2 ^ bitLength n ≤ 2 ^ (bitLength n / 2 + 1) * 2 ^ (bitLength n / 2 + 1) := by
    rw [← pow_add]
    exact Nat.pow_le_pow_right (by norm_num) (by omega)
  simp only [Nat.zero_add]
  omega

/-- The model `roundNat` keeps at most 24 binary digits (or returns `2 ^ 24`)
and moves the significand by at most half a unit in the last place. -/
theorem roundNat_spec (m : Nat) :
    (roundNat m).1 ≤ 2 ^ 24 ∧
      2 * m ≤ 2 * ((roundNat m).1 * 2 ^ (roundNat m).2) + 2 ^ (roundNat m).2 ∧
      2 * ((roundNat m).1 * 2 ^ (roundNat m).2) ≤ 2 * m + 2 ^ (roundNat m).2 := by
  have hlt := lt_two_pow_bitLength m
  unfold roundNat
  by_cases hb : bitLength m ≤ 24
  · simp only [hb, if_true, pow_zero, Nat.mul_one]
    have : 2 ^ bitLength m ≤ 2 ^ 24 := Nat.pow_le_pow_right (by norm_num) hb
    omega
  · simp only [hb, if_false]
    have hs : 1 ≤ bitLength m - 24 := by omega
    have hpow : 2 ^ bitLength m = 2 ^ 24 * 2 ^ (bitLength m - 24) := by
      rw [← pow_add]; congr 1; omega
    have hhalf : 2 ^ (bitLength m - 24) = 2 * 2 ^ (bitLength m - 24 - 1) := by
      rw [← pow_succ']; congr 1; omega
    have hpos : 0 < 2 ^ (bitLength m - 24) := Nat.pow_pos (by norm_num)
    have hq : m / 2 ^ (bitLength m - 24) < 2 ^ 24 := by
      rw [Nat.div_lt_iff_lt_mul hpos, ← hpow]; exact hlt
    have hdm := Nat.div_add_mod m (2 ^ (bitLength m - 24))
    have hr := Nat.mod_lt m hpos
    have hmul : 2 ^ (bitLength m - 24) * (m / 2 ^ (bitLength m - 24))
        = m / 2 ^ (bitLength m - 24) * 2 ^ (bitLength m - 24) := Nat.mul_comm _ _
    split
    · rename_i hcase
      simp only
      rw [Nat.add_mul, Nat.one_mul]
      refine ⟨by omega, by omega, ?_⟩
      rcases hcase with h | ⟨h, _⟩ <;> omega
    · rename_i hcase
      simp only
      refine ⟨by omega, ?_, by omega⟩
      have : m % 2 ^ (bitLength m - 24) ≤ 2 ^ (bitLength m - 24 - 1) := by
        by_contra hcon
        exact hcase (Or.inl (by omega))
      omega

end F32

/-! ## The edge index and its inverse -/

namespace CompleteGraph

variable {Visitor : Type}

theorem findEdge_of_lt (g : CompleteGraph Visitor) (v0 v1 : Nat) (h01 : v0 < v1)
    (h1 : v1 < g.numberOfVertices_) :
    g.findEdge v0 v1 = (g.edgeOfStrictlyIncreasingPairOfVertices v0 v1).map (fun e => (true, e)) := by
  have h0 : v0 < g.numberOfVertices_ := by omega
  have hne : v0 ≠ v1 := by omega
  simp [findEdge, numberOfVertices, h0, h1, hne, h01]

theorem findEdge_of_gt (g : CompleteGraph Visitor) (v0 v1 : Nat) (h10 : v1 < v0)
    (h0 : v0 < g.numberOfVertices_) :
    g.findEdge v0 v1 = (g.edgeOfStrictlyIncreasingPairOfVertices v1 v0).map (fun e => (true, e)) := by
  have h1 : v1 < g.numberOfVertices_ := by omega
  have hne : v0 ≠ v1 := by omega
  have hnlt : ¬ v0 < v1 := by omega
  simp [findEdge, numberOfVertices, h0, h1, hne, hnlt]

theorem edgeOfStrictlyIncreasingPairOfVertices_isSome (g : CompleteGraph Visitor) (v0 v1 : Nat)
    (h01 : v0 < v1) (h1 : v1 < g.numberOfVertices_) :
    ∃ e, g.edgeOfStrictlyIncreasingPairOfVertices v0 v1 = some e := by
  simp [edgeOfStrictlyIncreasingPairOfVertices, numberOfVertices, h01, h1]

theorem findEdge_eq_pairIndex (g : CompleteGraph Visitor) (v0 v1 : Nat)
    (hn : g.numberOfVertices_ ≤ 4294967297) (h01 : v0 < v1) (h1 : v1 < g.numberOfVertices_) :
    g.findEdge v0 v1 = some (true, pairIndex g.numberOfVertices_ v0 v1) := by
  rw [findEdge_of_lt g v0 v1 h01 h1, edgeOfStrictlyIncreasingPairOfVertices_eq g v0 v1 hn h01 h1]
  rfl

end CompleteGraph

/-- The `float` values that `vertexOfEdge(4096, 0)` goes through on 4098
vertices: `p = 8195 / 2`, `p * p` rounded to `16789506` (exactly `16789506.25`),
`q = 8192`, the difference `16781314`, its square root rounded to `4096.5`
(exactly `4096.50024...`), and `p - 4096.5 = 1`. -/
theorem vertexOfEdge_float_trace :
    F32.div2 (F32.ofNat (SizeT.sub (SizeT.mul 4098 2) 1)) = ⟨8195, -1⟩ ∧
    F32.mul ⟨8195, -1⟩ ⟨8195, -1⟩ = ⟨8394753, 1⟩ ∧
    F32.mul (F32.ofNat 4096) (F32.ofNat 2) = ⟨8192, 0⟩ ∧
    F32.sub ⟨8394753, 1⟩ ⟨8192, 0⟩ = ⟨8390657, 1⟩ ∧
    F32.sqrt ⟨8390657, 1⟩ = some ⟨8389632, -11⟩ ∧
    F32.sub ⟨8195, -1⟩ ⟨8389632, -11⟩ = ⟨2048, -11⟩ ∧
    F32.toSizeT ⟨2048, -11⟩ = some 1 := by
  decide

/-- C1 (fails on the code): on 4098 vertices `findEdge(0, 4097)` is the edge
`4096`, and `vertexOfEdge(4096, 0)` is `1`, not `0`, and `vertexOfEdge(4096, 1)`
is `1`, not `4097`: the single-precision square root rounds to `4096.5`. -/
theorem vertexOfEdge_findEdge_round_trip_fails :
    (CompleteGraph.constructN 4098 ()).findEdge 0 4097 = some (true, 4096) ∧
    (CompleteGraph.constructN 4098 ()).vertexOfEdge 4096 0 = some 1 ∧
    (CompleteGraph.constructN 4098 ()).vertexOfEdge 4096 1 = some 1 := by
  decide

/-- C2 (as stated, at `n = 2 ^ 32 + 1`): the edge index of the pair
`(2 ^ 32 - 1, 2 ^ 32)` is not below `numberOfEdges()`, whose product
`n * (n - 1)` wraps around to `2 ^ 32`. -/
theorem findEdge_not_lt_numberOfEdges :
    (CompleteGraph.constructN 4294967297 ()).findEdge 4294967295 4294967296
      = some (true, 9223372039002259455) ∧
    (CompleteGraph.constructN 4294967297 ()).numberOfEdges = 2147483648 ∧
    ¬ (9223372039002259455 < (CompleteGraph.constructN 4294967297 ()).numberOfEdges) := by
  decide

/-- C2 (amended): up to `2 ^ 32` vertices the map from the pairs `v0 < v1 < n`
to `findEdge(v0, v1).second` is a bijection onto the indices below
`numberOfEdges() = n * (n - 1) / 2`: every result is below `numberOfEdges()`,
two pairs with the same result are the same pair, and every index below
`numberOfEdges()` is the result of a pair. -/
theorem findEdge_bijective (g : CompleteGraph Visitor) (hn : g.numberOfVertices_ ≤ 4294967296) :
    g.numberOfEdges = g.numberOfVertices_ * (g.numberOfVertices_ - 1) / 2 ∧
    (∀ v0 v1, v0 < v1 → v1 < g.numberOfVertices_ →
      ∃ e, g.findEdge v0 v1 = some (true, e) ∧ e < g.numberOfEdges) ∧
    (∀ v0 v1 w0 w1, v0 < v1 → v1 < g.numberOfVertices_ → w0 < w1 → w1 < g.numberOfVertices_ →
      g.findEdge v0 v1 = g.findEdge w0 w1 → v0 = w0 ∧ v1 = w1) ∧
    (∀ e, e < g.numberOfEdges →
      ∃ v0 v1, v0 < v1 ∧ v1 < g.numberOfVertices_ ∧ g.findEdge v0 v1 = some (true, e)) := by
  have hN := CompleteGraph.numberOfEdges_eq g hn
  have hn' : g.numberOfVertices_ ≤ 4294967297 := by omega
  refine ⟨hN, ?_, ?_, ?_⟩
  · intro v0 v1 h01 h1
    refine ⟨pairIndex g.numberOfVertices_ v0 v1,
      CompleteGraph.findEdge_eq_pairIndex g v0 v1 hn' h01 h1, ?_⟩
    rw [hN]
    exact pairIndex_lt_card _ v0 v1 h01 h1
  · intro v0 v1 w0 w1 h01 h1 k01 k1 heq
    rw [CompleteGraph.findEdge_eq_pairIndex g v0 v1 hn' h01 h1,
      CompleteGraph.findEdge_eq_pairIndex g w0 w1 hn' k01 k1] at heq
    have heq' : pairIndex g.numberOfVertices_ v0 v1 = pairIndex g.numberOfVertices_ w0 w1 := by
      simpa using heq
    exact pairIndex_injective _ v0 v1 w0 w1 h01 h1 k01 k1 heq'
  · intro e he
    rw [hN] at he
    obtain ⟨v0, v1, h01, h1, h⟩ := exists_pairIndex_of_lt _ e he
    exact ⟨v0, v1, h01, h1, by rw [CompleteGraph.findEdge_eq_pairIndex g v0 v1 hn' h01 h1, h]⟩

/-- C2 (amended), on four vertices. -/
theorem findEdge_bijective_witness :
    (CompleteGraph.constructN 4 ()).numberOfVertices_ ≤ 4294967296 ∧
    ((CompleteGraph.constructN 4 ()).numberOfEdges = 4 * (4 - 1) / 2 ∧
    (∀ v0 v1, v0 < v1 → v1 < 4 →
      ∃ e, (CompleteGraph.constructN 4 ()).findEdge v0 v1 = some (true, e) ∧
        e < (CompleteGraph.constructN 4 ()).numberOfEdges) ∧
    (∀ v0 v1 w0 w1, v0 < v1 → v1 < 4 → w0 < w1 → w1 < 4 →
      (CompleteGraph.constructN 4 ()).findEdge v0 v1 = (CompleteGraph.constructN 4 ()).findEdge w0 w1 →
        v0 = w0 ∧ v1 = w1) ∧
    (∀ e, e < (CompleteGraph.constructN 4 ()).numberOfEdges →
      ∃ v0 v1, v0 < v1 ∧ v1 < 4 ∧ (CompleteGraph.constructN 4 ()).findEdge v0 v1 = some (true, e))) :=
  ⟨by decide, findEdge_bijective (CompleteGraph.constructN 4 ()) (by decide)⟩

/-- C3 (as stated, at `n = 2 ^ 32 + 2`): the index that the code gives the pair
`(2 ^ 32, 2 ^ 32 + 1)` is `6442450944`, while `9223372043297226752` pairs come
before it; the pair `(2 ^ 32 - 1, 2 ^ 32 + 1)`, which comes before it, has the
larger index `9223372043297226751`. Both products of the formula wrap around. -/
theorem edgeOfStrictlyIncreasingPairOfVertices_wraps :
    (CompleteGraph.constructN 4294967298 ()).edgeOfStrictlyIncreasingPairOfVertices
      4294967296 4294967297 = some 6442450944 ∧
    (pairsBefore 4294967298 4294967296 4294967297).card = 9223372043297226752 ∧
    lexLt (4294967295, 4294967297) (4294967296, 4294967297) ∧
    (CompleteGraph.constructN 4294967298 ()).edgeOfStrictlyIncreasingPairOfVertices
      4294967295 4294967297 = some 9223372043297226751 := by
  refine ⟨by decide, ?_, by decide, by decide⟩
  rw [card_pairsBefore 4294967298 4294967296 4294967297 (by decide) (by decide)]
  decide

/-- C3 (amended): up to `2 ^ 32 + 1` vertices, for `v0 < v1 < n`, the code
returns `(n - 1) * v0 - v0 * (v0 + 1) / 2 + v1 - 1` with no subtraction going
below zero, this is the number of pairs `a < b < n` that come before `(v0, v1)`
in the lexicographic order, and a pair that comes later has a larger index. -/
theorem edgeOfStrictlyIncreasingPairOfVertices_counts (g : CompleteGraph Visitor) (v0 v1 : Nat)
    (hn : g.numberOfVertices_ ≤ 4294967297) (h01 : v0 < v1) (h1 : v1 < g.numberOfVertices_) :
    g.edgeOfStrictlyIncreasingPairOfVertices v0 v1
      = some ((g.numberOfVertices_ - 1) * v0 - v0 * (v0 + 1) / 2 + v1 - 1) ∧
    v0 * (v0 + 1) / 2 ≤ (g.numberOfVertices_ - 1) * v0 ∧
    1 ≤ (g.numberOfVertices_ - 1) * v0 - v0 * (v0 + 1) / 2 + v1 ∧
    (g.numberOfVertices_ - 1) * v0 - v0 * (v0 + 1) / 2 + v1 - 1
      = (pairsBefore g.numberOfVertices_ v0 v1).card ∧
    (∀ w0 w1, w0 < w1 → w1 < g.numberOfVertices_ → lexLt (v0, v1) (w0, w1) →
      ∃ e e', g.edgeOfStrictlyIncreasingPairOfVertices v0 v1 = some e ∧
        g.edgeOfStrictlyIncreasingPairOfVertices w0 w1 = some e' ∧ e < e') := by
  refine ⟨CompleteGraph.edgeOfStrictlyIncreasingPairOfVertices_eq g v0 v1 hn h01 h1,
    half_mul_succ_le _ v0 v1 h01 h1, by omega,
    (card_pairsBefore _ v0 v1 h01 h1).symm, ?_⟩
  intro w0 w1 k01 k1 hlt
  exact ⟨_, _, CompleteGraph.edgeOfStrictlyIncreasingPairOfVertices_eq g v0 v1 hn h01 h1,
    CompleteGraph.edgeOfStrictlyIncreasingPairOfVertices_eq g w0 w1 hn k01 k1,
    pairIndex_lt_of_lexLt _ v0 v1 w0 w1 h01 h1 k01 k1 hlt⟩

/-- C3 (amended), on four vertices at the pair `(1, 3)`. -/
theorem edgeOfStrictlyIncreasingPairOfVertices_counts_witness :
    ((CompleteGraph.constructN 4 ()).numberOfVertices_ ≤ 4294967297 ∧ 1 < 3 ∧
      3 < (CompleteGraph.constructN 4 ()).numberOfVertices_) ∧
    (CompleteGraph.constructN 4 ()).edgeOfStrictlyIncreasingPairOfVertices 1 3
      = some ((4 - 1) * 1 - 1 * (1 + 1) / 2 + 3 - 1) ∧
    (4 - 1) * 1 - 1 * (1 + 1) / 2 + 3 - 1 = (pairsBefore 4 1 3).card :=
  ⟨⟨by decide, by decide, by decide⟩,
    (edgeOfStrictlyIncreasingPairOfVertices_counts (CompleteGraph.constructN 4 ()) 1 3
      (by decide) (by decide) (by decide)).1,
    (edgeOfStrictlyIncreasingPairOfVertices_counts (CompleteGraph.constructN 4 ()) 1 3
      (by decide) (by decide) (by decide)).2.2.2.1⟩

/-- C4: for `v0, v1 < n`, `findEdge(v0, v1)` is `(false, 0)` when `v0 == v1`
and `(true, edgeOfStrictlyIncreasingPairOfVertices(min, max))` otherwise, so
its first component is false exactly when `v0 == v1`, and
`findEdge(v0, v1) == findEdge(v1, v0)`; on four vertices the indices are those
of the table in the doc comment. -/
theorem findEdge_spec (g : CompleteGraph Visitor) (v0 v1 : Nat)
    (h0 : v0 < g.numberOfVertices_) (h1 : v1 < g.numberOfVertices_) :
    (v0 = v1 → g.findEdge v0 v1 = some (false, 0)) ∧
    (v0 ≠ v1 → ∃ e, g.edgeOfStrictlyIncreasingPairOfVertices (min v0 v1) (max v0 v1) = some e ∧
      g.findEdge v0 v1 = some (true, e)) ∧
    (∃ r, g.findEdge v0 v1 = some r ∧ (r.1 = false ↔ v0 = v1)) ∧
    g.findEdge v0 v1 = g.findEdge v1 v0 ∧
    ((g.assignN 4 g.visitor_).findEdge 0 1 = some (true, 0) ∧
      (g.assignN 4 g.visitor_).findEdge 0 2 = some (true, 1) ∧
      (g.assignN 4 g.visitor_).findEdge 0 3 = some (true, 2) ∧
      (g.assignN 4 g.visitor_).findEdge 1 2 = some (true, 3) ∧
      (g.assignN 4 g.visitor_).findEdge 1 3 = some (true, 4) ∧
      (g.assignN 4 g.visitor_).findEdge 2 3 = some (true, 5)) := by
  have key : ∀ a b, a < b → b < g.numberOfVertices_ →
      ∃ e, g.edgeOfStrictlyIncreasingPairOfVertices a b = some e ∧
        g.findEdge a b = some (true, e) ∧ g.findEdge b a = some (true, e) := by
    intro a b hab hb
    obtain ⟨e, he⟩ := CompleteGraph.edgeOfStrictlyIncreasingPairOfVertices_isSome g a b hab hb
    refine ⟨e, he, ?_, ?_⟩
    · rw [CompleteGraph.findEdge_of_lt g a b hab hb, he]; rfl
    · rw [CompleteGraph.findEdge_of_gt g b a hab hb, he]; rfl
  have hself : ∀ a, a < g.numberOfVertices_ → g.findEdge a a = some (false, 0) := by
    intro a ha
    simp [CompleteGraph.findEdge, CompleteGraph.numberOfVertices, ha]
  refine ⟨?_, ?_, ?_, ?_, ?_⟩
  · intro h; subst h; exact hself v0 h0
  · intro hne
    rcases Nat.lt_or_gt_of_ne hne with h | h
    · obtain ⟨e, he, hf, _⟩ := key v0 v1 h h1
      exact ⟨e, by rw [min_eq_left h.le, max_eq_right h.le]; exact he, hf⟩
    · obtain ⟨e, he, _, hf⟩ := key v1 v0 h h0
      exact ⟨e, by rw [min_eq_right h.le, max_eq_left h.le]; exact he, hf⟩
  · rcases Nat.lt_trichotomy v0 v1 with h | h | h
    · obtain ⟨e, _, hf, _⟩ := key v0 v1 h h1
      exact ⟨(true, e), hf, by simp; omega⟩
    · subst h
      exact ⟨(false, 0), hself v0 h0, by simp⟩
    · obtain ⟨e, _, _, hf⟩ := key v1 v0 h h0
      exact ⟨(true, e), hf, by simp; omega⟩
  · rcases Nat.lt_trichotomy v0 v1 with h | h | h
    · obtain ⟨e, _, hf, hf'⟩ := key v0 v1 h h1
      rw [hf, hf']
    · subst h; rfl
    · obtain ⟨e, _, hf, hf'⟩ := key v1 v0 h h0
      rw [hf, hf']
  · simp [CompleteGraph.findEdge, CompleteGraph.assignN, CompleteGraph.numberOfVertices,
      CompleteGraph.edgeOfStrictlyIncreasingPairOfVertices, SizeT.add, SizeT.sub, SizeT.mul,
      SizeT.modulus]

/-- C4, on four vertices at the vertices `3` and `1`. -/
theorem findEdge_spec_witness :
    (3 < (CompleteGraph.constructN 4 ()).numberOfVertices_ ∧
      1 < (CompleteGraph.constructN 4 ()).numberOfVertices_) ∧
    (∃ r, (CompleteGraph.constructN 4 ()).findEdge 3 1 = some r ∧ (r.1 = false ↔ 3 = 1)) ∧
    (CompleteGraph.constructN 4 ()).findEdge 3 1 = (CompleteGraph.constructN 4 ()).findEdge 1 3 :=
  ⟨⟨by decide, by decide⟩,
    (findEdge_spec (CompleteGraph.constructN 4 ()) 3 1 (by decide) (by decide)).2.2.1,
    (findEdge_spec (CompleteGraph.constructN 4 ()) 3 1 (by decide) (by decide)).2.2.2.1⟩

/-- C5 (fails on the code): on 4098 vertices the edge `4096` is below
`numberOfEdges() = 8394753` and both `vertexOfEdge(4096, 0)` and
`vertexOfEdge(4096, 1)` are `1`; on 5794 vertices the edge `16782320` is below
`numberOfEdges() = 16782321` and `vertexOfEdge(16782320, 1)` is `5794`, the
vertex count. -/
theorem vertexOfEdge_canonical_order_fails :
    (CompleteGraph.constructN 4098 ()).numberOfEdges = 8394753 ∧
    (CompleteGraph.constructN 4098 ()).vertexOfEdge 4096 0 = some 1 ∧
    (CompleteGraph.constructN 4098 ()).vertexOfEdge 4096 1 = some 1 ∧
    (CompleteGraph.constructN 5794 ()).numberOfEdges = 16782321 ∧
    (CompleteGraph.constructN 5794 ()).vertexOfEdge 16782320 0 = some 5791 ∧
    (CompleteGraph.constructN 5794 ()).vertexOfEdge 16782320 1 = some 5794 := by
  decide

/-- C9 (as stated, at `n = 2 ^ 32 + 1`): `numberOfEdges()` is `2 ^ 31`, while
the graph has `n * (n - 1) / 2 = 9223372039002259456` pairs of distinct
vertices. -/
theorem numberOfEdges_wraps :
    (CompleteGraph.constructN 4294967297 ()).numberOfEdges = 2147483648 ∧
    (pairs 4294967297).card = 9223372039002259456 ∧
    4294967297 * (4294967297 - 1) / 2 = 9223372039002259456 := by
  refine ⟨by decide, ?_, by decide⟩
  rw [card_pairs]

/-- C9 (amended): for `2 ≤ n ≤ 2 ^ 32`, `numberOfEdges()` returns
`n * (n - 1) / 2`, the number of pairs `a < b < n`. -/
theorem numberOfEdges_spec (g : CompleteGraph Visitor) (_h2 : 2 ≤ g.numberOfVertices_)
    (hn : g.numberOfVertices_ ≤ 4294967296) :
    g.numberOfEdges = g.numberOfVertices_ * (g.numberOfVertices_ - 1) / 2 ∧
    g.numberOfEdges = (pairs g.numberOfVertices_).card := by
  have h := CompleteGraph.numberOfEdges_eq g hn
  exact ⟨h, by rw [h, card_pairs]⟩

/-- C9 (amended), on three vertices. -/
theorem numberOfEdges_spec_witness :
    (2 ≤ (CompleteGraph.constructN 3 ()).numberOfVertices_ ∧
      (CompleteGraph.constructN 3 ()).numberOfVertices_ ≤ 4294967296) ∧
    (CompleteGraph.constructN 3 ()).numberOfEdges = 3 * (3 - 1) / 2 ∧
    (CompleteGraph.constructN 3 ()).numberOfEdges = (pairs 3).card :=
  ⟨⟨by decide, by decide⟩, numberOfEdges_spec (CompleteGraph.constructN 3 ()) (by decide) (by decide)⟩

/-! ## Neighbours by rank -/

namespace CompleteGraph

variable {Visitor : Type}

theorem numberOfEdgesFromVertex_eq (g : CompleteGraph Visitor) (v : Nat)
    (hn : g.numberOfVertices_ < SizeT.modulus) (hv : v < g.numberOfVertices_) :
    g.numberOfEdgesFromVertex v = some (g.numberOfVertices_ - 1) := by
  simp [numberOfEdgesFromVertex, numberOfVertices, hv,
    SizeT.sizeT_sub_one_eq g.numberOfVertices_ (by omega) hn]

theorem numberOfEdgesToVertex_eq (g : CompleteGraph Visitor) (v : Nat)
    (hn : g.numberOfVertices_ < SizeT.modulus) (hv : v < g.numberOfVertices_) :
    g.numberOfEdgesToVertex v = some (g.numberOfVertices_ - 1) := by
  simp [numberOfEdgesToVertex, numberOfVertices, hv,
    SizeT.sizeT_sub_one_eq g.numberOfVertices_ (by omega) hn]

theorem succ_rank_eq (g : CompleteGraph Visitor) (j : Nat)
    (hn : g.numberOfVertices_ < SizeT.modulus) (hj : j < g.numberOfVertices_ - 1) :
    SizeT.add j 1 = j + 1 :=
  SizeT.sizeT_add_eq j 1 (by omega)

theorem vertexFromVertex_eq (g : CompleteGraph Visitor) (v j : Nat)
    (hn : g.numberOfVertices_ < SizeT.modulus) (hv : v < g.numberOfVertices_)
    (hj : j < g.numberOfVertices_ - 1) :
    g.vertexFromVertex v j = some (if j < v then j else j + 1) := by
  simp only [vertexFromVertex, numberOfEdgesFromVertex_eq g v hn hv, hj, not_true_eq_false,
    if_false, succ_rank_eq g j hn hj]
  split <;> rfl

theorem vertexToVertex_eq (g : CompleteGraph Visitor) (v j : Nat)
    (hn : g.numberOfVertices_ < SizeT.modulus) (hv : v < g.numberOfVertices_)
    (hj : j < g.numberOfVertices_ - 1) :
    g.vertexToVertex v j = g.vertexFromVertex v j := by
  simp only [vertexToVertex, numberOfEdgesToVertex_eq g v hn hv, hj, not_true_eq_false, if_false]

theorem edgeFromVertex_eq (g : CompleteGraph Visitor) (v j : Nat)
    (hn : g.numberOfVertices_ < SizeT.modulus) (hv : v < g.numberOfVertices_)
    (hj : j < g.numberOfVertices_ - 1) :
    g.edgeFromVertex v j
      = if j < v then g.edgeOfStrictlyIncreasingPairOfVertices j v
        else g.edgeOfStrictlyIncreasingPairOfVertices v (j + 1) := by
  simp only [edgeFromVertex, numberOfEdgesFromVertex_eq g v hn hv, hj, not_true_eq_false,
    if_false, succ_rank_eq g j hn hj]

theorem edgeToVertex_eq (g : CompleteGraph Visitor) (v j : Nat)
    (hn : g.numberOfVertices_ < SizeT.modulus) (hv : v < g.numberOfVertices_)
    (hj : j < g.numberOfVertices_ - 1) :
    g.edgeToVertex v j = g.edgeFromVertex v j := by
  simp only [edgeToVertex, numberOfEdgesToVertex_eq g v hn hv, hj, not_true_eq_false, if_false]

theorem adjacencyFromVertex_eq (g : CompleteGraph Visitor) (v j : Nat)
    (hn : g.numberOfVertices_ < SizeT.modulus) (hv : v < g.numberOfVertices_)
    (hj : j < g.numberOfVertices_ - 1) :
    g.adjacencyFromVertex v j
      = if j < v then (g.edgeOfStrictlyIncreasingPairOfVertices j v).map (fun e => ⟨j, e⟩)
        else (g.edgeOfStrictlyIncreasingPairOfVertices v (j + 1)).map (fun e => ⟨j + 1, e⟩) := by
  simp only [adjacencyFromVertex, numberOfEdgesToVertex_eq g v hn hv, hj, not_true_eq_false,
    if_false, succ_rank_eq g j hn hj]

/-- The vertex, the edge and the adjacency at a valid rank. -/
theorem rank_projections (g : CompleteGraph Visitor) (v j : Nat)
    (hn : g.numberOfVertices_ < SizeT.modulus) (hv : v < g.numberOfVertices_)
    (hj : j < g.numberOfVertices_ - 1) :
    ∃ u e, u < g.numberOfVertices_ ∧ u ≠ v ∧
      g.edgeOfStrictlyIncreasingPairOfVertices (min v u) (max v u) = some e ∧
      g.vertexFromVertex v j = some u ∧ g.edgeFromVertex v j = some e ∧
      g.adjacencyFromVertex v j = some ⟨u, e⟩ := by
  rw [vertexFromVertex_eq g v j hn hv hj, edgeFromVertex_eq g v j hn hv hj,
    adjacencyFromVertex_eq g v j hn hv hj]
  by_cases hjv : j < v
  · obtain ⟨e, he⟩ := edgeOfStrictlyIncreasingPairOfVertices_isSome g j v hjv hv
    refine ⟨j, e, by omega, by omega, ?_, ?_, ?_, ?_⟩
    · rw [min_eq_right hjv.le, max_eq_left hjv.le]; exact he
    · simp [hjv]
    · simp [hjv, he]
    · simp [hjv, he]
  · obtain ⟨e, he⟩ :=
      edgeOfStrictlyIncreasingPairOfVertices_isSome g v (j + 1) (by omega) (by omega)
    refine ⟨j + 1, e, by omega, by omega, ?_, ?_, ?_, ?_⟩
    · rw [min_eq_left (by omega), max_eq_right (by omega)]; exact he
    · simp [hjv]
    · simp [hjv, he]
    · simp [hjv, he]

end CompleteGraph

theorem map_skip_range (n v : Nat) (hv : v < n) :
    (List.range (n - 1)).map (fun j => if j < v then j else j + 1) = others n v := by
  unfold others
  induction n with
  | zero => omega
  | succ n ih =>
    rw [List.range_succ, List.filter_append]
    by_cases hvn : v = n
    · subst hvn
      have h1 : (List.range v).filter (fun u => decide (u ≠ v)) = List.range v := by
        rw [List.filter_eq_self]
        intro a ha
        have := List.mem_range.mp ha
        simp; omega
      have h2 : (List.range (v + 1 - 1)).map (fun j => if j < v then j else j + 1)
          = List.range v := by
        simp only [Nat.add_sub_cancel]
        conv_rhs => rw [← List.map_id (List.range v)]
        apply List.map_congr_left
        intro a ha
        have := List.mem_range.mp ha
        simp [this]
      rw [h1, h2]
      simp
    · have hlt : v < n := by omega
      have ih' := ih hlt
      have e1 : n + 1 - 1 = (n - 1) + 1 := by omega
      rw [e1, List.range_succ, List.map_append, ih']
      have e2 : ¬ (n - 1 < v) := by omega
      have e3 : n - 1 + 1 = n := by omega
      have e4 : n ≠ v := by omega
      simp [e2, e3, e4]

theorem others_facts (n v : Nat) (hv : v < n) :
    (others n v).length = n - 1 ∧ v ∉ others n v ∧ (others n v).Nodup ∧
      (others n v).Sorted (fun a b => a < b) := by
  refine ⟨?_, ?_, ?_, ?_⟩
  · rw [← map_skip_range n v hv]; simp
  · simp [others]
  · exact (List.nodup_range n).filter _
  · exact (List.pairwise_lt_range n).filter _

/-- C6: for a vertex `v < n`, the neighbours `vertexFromVertex(v, j)` at the
ranks `j = 0, ..., n - 2` are, in this order, the vertices `0, ..., n - 1`
without `v`, ascending: `n - 1` of them, `v` not among them, without repeats,
strictly increasing; `vertexToVertex` gives the same list. -/
theorem vertexFromVertex_enumerates (g : CompleteGraph Visitor) (v : Nat)
    (hn : g.numberOfVertices_ < SizeT.modulus) (hv : v < g.numberOfVertices_) :
    (List.range (g.numberOfVertices_ - 1)).map (g.vertexFromVertex v)
      = (others g.numberOfVertices_ v).map some ∧
    (List.range (g.numberOfVertices_ - 1)).map (g.vertexToVertex v)
      = (others g.numberOfVertices_ v).map some ∧
    (others g.numberOfVertices_ v).length = g.numberOfVertices_ - 1 ∧
    v ∉ others g.numberOfVertices_ v ∧
    (others g.numberOfVertices_ v).Nodup ∧
    (others g.numberOfVertices_ v).Sorted (fun a b => a < b) := by
  have hfrom : (List.range (g.numberOfVertices_ - 1)).map (g.vertexFromVertex v)
      = (others g.numberOfVertices_ v).map some := by
    rw [← map_skip_range g.numberOfVertices_ v hv, List.map_map]
    apply List.map_congr_left
    intro j hj
    exact CompleteGraph.vertexFromVertex_eq g v j hn hv (List.mem_range.mp hj)
  have hto : (List.range (g.numberOfVertices_ - 1)).map (g.vertexToVertex v)
      = (List.range (g.numberOfVertices_ - 1)).map (g.vertexFromVertex v) := by
    apply List.map_congr_left
    intro j hj
    exact CompleteGraph.vertexToVertex_eq g v j hn hv (List.mem_range.mp hj)
  exact ⟨hfrom, hto.trans hfrom, others_facts g.numberOfVertices_ v hv⟩

/-- C6, on four vertices at the vertex `2`: the neighbours are `0, 1, 3`. -/
theorem vertexFromVertex_enumerates_witness :
    ((CompleteGraph.constructN 4 ()).numberOfVertices_ < SizeT.modulus ∧
      2 < (CompleteGraph.constructN 4 ()).numberOfVertices_) ∧
    (List.range (4 - 1)).map ((CompleteGraph.constructN 4 ()).vertexFromVertex 2)
      = (others 4 2).map some ∧
    others 4 2 = [0, 1, 3] :=
  ⟨⟨by decide, by decide⟩,
    (vertexFromVertex_enumerates (CompleteGraph.constructN 4 ()) 2 (by decide) (by decide)).1,
    by decide⟩

/-- C7: for a vertex `v < n` and a rank `j < n - 1`, `edgeFromVertex(v, j)` is
the second component of `findEdge(v, vertexFromVertex(v, j))`, whose first
component is true, and `edgeToVertex(v, j)` is the same edge; on four vertices
the vertex `0` yields the edges to `1, 2, 3` and the vertex `2` the edges to
`0, 1, 3`, in this order. -/
theorem edgeFromVertex_eq_findEdge (g : CompleteGraph Visitor) (v j : Nat)
    (hn : g.numberOfVertices_ < SizeT.modulus) (hv : v < g.numberOfVertices_)
    (hj : j < g.numberOfVertices_ - 1) :
    (∃ u e, g.vertexFromVertex v j = some u ∧ g.edgeFromVertex v j = some e ∧
      g.findEdge v u = some (true, e) ∧ g.edgeToVertex v j = some e) ∧
    ((List.range 3).map ((g.assignN 4 g.visitor_).edgeFromVertex 0)
        = [(g.assignN 4 g.visitor_).findEdge 0 1, (g.assignN 4 g.visitor_).findEdge 0 2,
            (g.assignN 4 g.visitor_).findEdge 0 3].map (Option.map Prod.snd) ∧
      (List.range 3).map ((g.assignN 4 g.visitor_).edgeFromVertex 0) = [some 0, some 1, some 2] ∧
      (List.range 3).map ((g.assignN 4 g.visitor_).edgeFromVertex 2)
        = [(g.assignN 4 g.visitor_).findEdge 2 0, (g.assignN 4 g.visitor_).findEdge 2 1,
            (g.assignN 4 g.visitor_).findEdge 2 3].map (Option.map Prod.snd) ∧
      (List.range 3).map ((g.assignN 4 g.visitor_).edgeFromVertex 2)
        = [some 1, some 3, some 5]) := by
  constructor
  · obtain ⟨u, e, hu, huv, he, h1, h2, _⟩ := CompleteGraph.rank_projections g v j hn hv hj
    refine ⟨u, e, h1, h2, ?_, by rw [CompleteGraph.edgeToVertex_eq g v j hn hv hj]; exact h2⟩
    rcases Nat.lt_or_gt_of_ne huv with h | h
    · rw [min_eq_right h.le, max_eq_left h.le] at he
      rw [CompleteGraph.findEdge_of_gt g v u h hv, he]; rfl
    · rw [min_eq_left h.le, max_eq_right h.le] at he
      rw [CompleteGraph.findEdge_of_lt g v u h hu, he]; rfl
  · simp [List.range_succ, CompleteGraph.edgeFromVertex, CompleteGraph.numberOfEdgesFromVertex,
      CompleteGraph.findEdge, CompleteGraph.assignN, CompleteGraph.numberOfVertices,
      CompleteGraph.edgeOfStrictlyIncreasingPairOfVertices, SizeT.add, SizeT.sub, SizeT.mul,
      SizeT.modulus]

/-- C7, on four vertices at the vertex `2` and the rank `1`. -/
theorem edgeFromVertex_eq_findEdge_witness :
    ((CompleteGraph.constructN 4 ()).numberOfVertices_ < SizeT.modulus ∧
      2 < (CompleteGraph.constructN 4 ()).numberOfVertices_ ∧
      1 < (CompleteGraph.constructN 4 ()).numberOfVertices_ - 1) ∧
    (∃ u e, (CompleteGraph.constructN 4 ()).vertexFromVertex 2 1 = some u ∧
      (CompleteGraph.constructN 4 ()).edgeFromVertex 2 1 = some e ∧
      (CompleteGraph.constructN 4 ()).findEdge 2 u = some (true, e) ∧
      (CompleteGraph.constructN 4 ()).edgeToVertex 2 1 = some e) :=
  ⟨⟨by decide, by decide, by decide⟩,
    (edgeFromVertex_eq_findEdge (CompleteGraph.constructN 4 ()) 2 1
      (by decide) (by decide) (by decide)).1⟩

/-! ## The cursors -/

theorem addDiff_eq (a : Nat) (k : Int) (hk : 0 ≤ k) (h : a + k.toNat < SizeT.modulus) :
    SizeT.addDiff a k = a + k.toNat := by
  unfold SizeT.addDiff SizeT.modulus at *
  omega

/-- C8: at a vertex `v < n` and a rank `j < n - 1`, `adjacencyFromVertex(v, j)`
is the pair of `vertexFromVertex(v, j)` and `edgeFromVertex(v, j)`, and so is
`adjacencyToVertex(v, j)`; for an `AdjacencyIterator` at this vertex and rank,
the `VertexIterator` and the `EdgeIterator` built from it hold the same graph,
vertex and rank, and dereference to the vertex and to the edge of what the
`AdjacencyIterator` dereferences to. -/
theorem adjacencyFromVertex_projections (g : CompleteGraph Visitor) (v j : Nat)
    (hn : g.numberOfVertices_ < SizeT.modulus) (hv : v < g.numberOfVertices_)
    (hj : j < g.numberOfVertices_ - 1) :
    ∃ u e, g.vertexFromVertex v j = some u ∧ g.edgeFromVertex v j = some e ∧
      g.adjacencyFromVertex v j = some ⟨u, e⟩ ∧ g.adjacencyToVertex v j = some ⟨u, e⟩ ∧
      ∀ (heap : Heap Visitor) (it : AdjacencyIterator), heap.load it.graph_ = some g →
        it.vertex_ = v → it.adjacencyIndex_ = j →
        it.deref heap = some ⟨u, e⟩ ∧
        (VertexIterator.ofAdjacencyIterator it).deref heap = some u ∧
        (EdgeIterator.ofAdjacencyIterator it).deref heap = some e ∧
        (VertexIterator.ofAdjacencyIterator it).toAdjacencyIterator = it ∧
        (EdgeIterator.ofAdjacencyIterator it).toAdjacencyIterator = it := by
  obtain ⟨u, e, _, _, _, h1, h2, h3⟩ := CompleteGraph.rank_projections g v j hn hv hj
  refine ⟨u, e, h1, h2, h3, h3, ?_⟩
  intro heap it hload hvx hidx
  subst hvx hidx
  refine ⟨?_, ?_, ?_, rfl, rfl⟩
  · simp only [AdjacencyIterator.deref, hload, h3]
  · simp only [VertexIterator.deref, VertexIterator.ofAdjacencyIterator, hload, h1]
  · simp only [EdgeIterator.deref, EdgeIterator.ofAdjacencyIterator, hload, h2]

/-- C8, on four vertices at the vertex `2` and the rank `1`, for the cursor of
the graph at the address `1`. -/
theorem adjacencyFromVertex_projections_witness :
    ((CompleteGraph.constructN 4 ()).numberOfVertices_ < SizeT.modulus ∧
      2 < (CompleteGraph.constructN 4 ()).numberOfVertices_ ∧
      1 < (CompleteGraph.constructN 4 ()).numberOfVertices_ - 1) ∧
    (∃ u e, (CompleteGraph.constructN 4 ()).vertexFromVertex 2 1 = some u ∧
      (CompleteGraph.constructN 4 ()).edgeFromVertex 2 1 = some e ∧
      (CompleteGraph.constructN 4 ()).adjacencyFromVertex 2 1 = some ⟨u, e⟩ ∧
      (AdjacencyIterator.mk 1 2 1).deref (Heap.single 1 (CompleteGraph.constructN 4 ()))
        = some ⟨u, e⟩ ∧
      (VertexIterator.ofAdjacencyIterator (AdjacencyIterator.mk 1 2 1)).deref
        (Heap.single 1 (CompleteGraph.constructN 4 ())) = some u ∧
      (EdgeIterator.ofAdjacencyIterator (AdjacencyIterator.mk 1 2 1)).deref
        (Heap.single 1 (CompleteGraph.constructN 4 ())) = some e) :=
  ⟨⟨by decide, by decide, by decide⟩,
    match adjacencyFromVertex_projections (CompleteGraph.constructN 4 ()) 2 1
      (by decide) (by decide) (by decide) with
    | ⟨u, e, h1, h2, h3, _, h5⟩ =>
      ⟨u, e, h1, h2, h3,
        (h5 (Heap.single 1 (CompleteGraph.constructN 4 ())) (AdjacencyIterator.mk 1 2 1)
          rfl rfl rfl).1,
        (h5 (Heap.single 1 (CompleteGraph.constructN 4 ())) (AdjacencyIterator.mk 1 2 1)
          rfl rfl rfl).2.1,
        (h5 (Heap.single 1 (CompleteGraph.constructN 4 ())) (AdjacencyIterator.mk 1 2 1)
          rfl rfl rfl).2.2.1⟩⟩

/-- C10 (as stated, for `VertexIterator` and `EdgeIterator`): on four vertices,
for the cursors `c` at the vertex `2` and the rank `0` and the offset `2`, the
inherited `operator+` returns an `AdjacencyIterator`, so `*(c + 2)` is the
`Adjacency<>` `(3, 5)` for both classes, while `c[2]` is the vertex `3` for the
`VertexIterator` and the edge `5` for the `EdgeIterator`: one and the same
value of `*(c + 2)` stands against two different values of `c[2]`. -/
theorem derived_cursor_plus_deref_is_adjacency :
    ((VertexIterator.mk ⟨1, 2, 0⟩).plus 2).deref (Heap.single 1 (CompleteGraph.constructN 4 ()))
      = some (Adjacency.mk 3 5) ∧
    (VertexIterator.mk ⟨1, 2, 0⟩).index (Heap.single 1 (CompleteGraph.constructN 4 ())) 2
      = some 3 ∧
    ((EdgeIterator.mk ⟨1, 2, 0⟩).plus 2).deref (Heap.single 1 (CompleteGraph.constructN 4 ()))
      = some (Adjacency.mk 3 5) ∧
    (EdgeIterator.mk ⟨1, 2, 0⟩).index (Heap.single 1 (CompleteGraph.constructN 4 ())) 2
      = some 5 ∧
    ((VertexIterator.mk ⟨1, 2, 0⟩).plus 2).deref (Heap.single 1 (CompleteGraph.constructN 4 ()))
      = ((EdgeIterator.mk ⟨1, 2, 0⟩).plus 2).deref
          (Heap.single 1 (CompleteGraph.constructN 4 ())) ∧
    (VertexIterator.mk ⟨1, 2, 0⟩).index (Heap.single 1 (CompleteGraph.constructN 4 ())) 2
      ≠ (EdgeIterator.mk ⟨1, 2, 0⟩).index (Heap.single 1 (CompleteGraph.constructN 4 ())) 2 := by
  decide

/-- C10 (amended): for a cursor of the graph at the vertex `v < n` and the rank
`r`, and an offset `k ≥ 0` with `r + k < n - 1`, there are a vertex `u` and an
edge `e` such that: for an `AdjacencyIterator`, `c[k]` and `*(c + k)` are both
the `Adjacency<>` `(u, e)`; for a `VertexIterator`, `c[k]` is `u`, `*(c + k)` is
the `Adjacency<>` `(u, e)` of the `AdjacencyIterator` that the inherited
`operator+` returns, and the cursors of the own class, `VertexIterator(c + k)`
and `c` after `c += k`, dereference to `u`; for an `EdgeIterator` likewise with
`e`. In particular `*c == c[0]` for the three classes. -/
theorem cursor_advance_deref_eq_index (g : CompleteGraph Visitor) (heap : Heap Visitor)
    (it : AdjacencyIterator) (k : Int)
    (hn : g.numberOfVertices_ < SizeT.modulus) (hload : heap.load it.graph_ = some g)
    (hv : it.vertex_ < g.numberOfVertices_) (hk : 0 ≤ k)
    (hr : it.adjacencyIndex_ + k.toNat < g.numberOfVertices_ - 1) :
    (∃ u e,
      (it.index heap k.toNat = some ⟨u, e⟩ ∧ (it.plus k).deref heap = some ⟨u, e⟩) ∧
      ((VertexIterator.mk it).index heap k.toNat = some u ∧
        ((VertexIterator.mk it).plus k).deref heap = some ⟨u, e⟩ ∧
        (VertexIterator.ofAdjacencyIterator ((VertexIterator.mk it).plus k)).deref heap
          = some u ∧
        ((VertexIterator.mk it).plusAssign k).deref heap = some u) ∧
      ((EdgeIterator.mk it).index heap k.toNat = some e ∧
        ((EdgeIterator.mk it).plus k).deref heap = some ⟨u, e⟩ ∧
        (EdgeIterator.ofAdjacencyIterator ((EdgeIterator.mk it).plus k)).deref heap = some e ∧
        ((EdgeIterator.mk it).plusAssign k).deref heap = some e)) ∧
    it.deref heap = it.index heap 0 ∧
    (VertexIterator.mk it).deref heap = (VertexIterator.mk it).index heap 0 ∧
    (EdgeIterator.mk it).deref heap = (EdgeIterator.mk it).index heap 0 := by
  have hadd : SizeT.add it.adjacencyIndex_ k.toNat = it.adjacencyIndex_ + k.toNat :=
    SizeT.sizeT_add_eq _ _ (by omega)
  have hdiff : SizeT.addDiff it.adjacencyIndex_ k = it.adjacencyIndex_ + k.toNat :=
    addDiff_eq _ _ hk (by omega)
  have hzero : SizeT.add it.adjacencyIndex_ 0 = it.adjacencyIndex_ :=
    SizeT.sizeT_add_eq _ _ (by omega)
  obtain ⟨u, e, _, _, _, h1, h2, h3⟩ :=
    CompleteGraph.rank_projections g it.vertex_ (it.adjacencyIndex_ + k.toNat) hn hv hr
  refine ⟨⟨u, e, ⟨?_, ?_⟩, ⟨?_, ?_, ?_, ?_⟩, ⟨?_, ?_, ?_, ?_⟩⟩, ?_, ?_, ?_⟩
  · simp only [AdjacencyIterator.index, hload, hadd, h3]
  · simp only [AdjacencyIterator.deref, AdjacencyIterator.plus, AdjacencyIterator.plusAssign,
      hload, hdiff, h3]
  · simp only [VertexIterator.index, hload, hadd, h1]
  · simp only [AdjacencyIterator.deref, VertexIterator.plus, AdjacencyIterator.plus,
      AdjacencyIterator.plusAssign, hload, hdiff, h3]
  · simp only [VertexIterator.deref, VertexIterator.ofAdjacencyIterator, VertexIterator.plus,
      AdjacencyIterator.plus, AdjacencyIterator.plusAssign, hload, hdiff, h1]
  · simp only [VertexIterator.deref, VertexIterator.plusAssign, AdjacencyIterator.plusAssign,
      hload, hdiff, h1]
  · simp only [EdgeIterator.index, hload, hadd, h2]
  · simp only [AdjacencyIterator.deref, EdgeIterator.plus, AdjacencyIterator.plus,
      AdjacencyIterator.plusAssign, hload, hdiff, h3]
  · simp only [EdgeIterator.deref, EdgeIterator.ofAdjacencyIterator, EdgeIterator.plus,
      AdjacencyIterator.plus, AdjacencyIterator.plusAssign, hload, hdiff, h2]
  · simp only [EdgeIterator.deref, EdgeIterator.plusAssign, AdjacencyIterator.plusAssign,
      hload, hdiff, h2]
  · simp only [AdjacencyIterator.deref, AdjacencyIterator.index, hzero]
  · simp only [VertexIterator.deref, VertexIterator.index, hzero]
  · simp only [EdgeIterator.deref, EdgeIterator.index, hzero]

/-- C10 (amended), on four vertices for the cursors of the graph at the address
`1`, at the vertex `2` and the rank `0`, advanced by `2`. -/
theorem cursor_advance_deref_eq_index_witness :
    ((CompleteGraph.constructN 4 ()).numberOfVertices_ < SizeT.modulus ∧
      (Heap.single 1 (CompleteGraph.constructN 4 ())).load (AdjacencyIterator.mk 1 2 0).graph_
        = some (CompleteGraph.constructN 4 ()) ∧
      (AdjacencyIterator.mk 1 2 0).vertex_ < (CompleteGraph.constructN 4 ()).numberOfVertices_ ∧
      (0 : Int) ≤ 2 ∧
      (AdjacencyIterator.mk 1 2 0).adjacencyIndex_ + (2 : Int).toNat
        < (CompleteGraph.constructN 4 ()).numberOfVertices_ - 1) ∧
    (AdjacencyIterator.mk 1 2 0).deref (Heap.single 1 (CompleteGraph.constructN 4 ()))
      = (AdjacencyIterator.mk 1 2 0).index (Heap.single 1 (CompleteGraph.constructN 4 ())) 0 ∧
    ∃ u e,
      ((AdjacencyIterator.mk 1 2 0).index (Heap.single 1 (CompleteGraph.constructN 4 ()))
          (2 : Int).toNat = some ⟨u, e⟩ ∧
        ((AdjacencyIterator.mk 1 2 0).plus 2).deref
          (Heap.single 1 (CompleteGraph.constructN 4 ())) = some ⟨u, e⟩) ∧
      ((VertexIterator.mk (AdjacencyIterator.mk 1 2 0)).index
          (Heap.single 1 (CompleteGraph.constructN 4 ())) (2 : Int).toNat = some u ∧
        ((VertexIterator.mk (AdjacencyIterator.mk 1 2 0)).plus 2).deref
          (Heap.single 1 (CompleteGraph.constructN 4 ())) = some ⟨u, e⟩ ∧
        (VertexIterator.ofAdjacencyIterator
          ((VertexIterator.mk (AdjacencyIterator.mk 1 2 0)).plus 2)).deref
          (Heap.single 1 (CompleteGraph.constructN 4 ())) = some u ∧
        ((VertexIterator.mk (AdjacencyIterator.mk 1 2 0)).plusAssign 2).deref
          (Heap.single 1 (CompleteGraph.constructN 4 ())) = some u) ∧
      ((EdgeIterator.mk (AdjacencyIterator.mk 1 2 0)).index
          (Heap.single 1 (CompleteGraph.constructN 4 ())) (2 : Int).toNat = some e ∧
        ((EdgeIterator.mk (AdjacencyIterator.mk 1 2 0)).plus 2).deref
          (Heap.single 1 (CompleteGraph.constructN 4 ())) = some ⟨u, e⟩ ∧
        (EdgeIterator.ofAdjacencyIterator
          ((EdgeIterator.mk (AdjacencyIterator.mk 1 2 0)).plus 2)).deref
          (Heap.single 1 (CompleteGraph.constructN 4 ())) = some e ∧
        ((EdgeIterator.mk (AdjacencyIterator.mk 1 2 0)).plusAssign 2).deref
          (Heap.single 1 (CompleteGraph.constructN 4 ())) = some e) :=
  ⟨⟨by decide, rfl, by decide, by decide, by decide⟩,
    (cursor_advance_deref_eq_index (CompleteGraph.constructN 4 ())
      (Heap.single 1 (CompleteGraph.constructN 4 ())) (AdjacencyIterator.mk 1 2 0) 2
      (by decide) rfl (by decide) (by decide) (by decide)).2.1,
    (cursor_advance_deref_eq_index (CompleteGraph.constructN 4 ())
      (Heap.single 1 (CompleteGraph.constructN 4 ())) (AdjacencyIterator.mk 1 2 0) 2
      (by decide) rfl (by decide) (by decide) (by decide)).1⟩

/-! ## Comparison of cursors -/

/-- C11: two cursors whose vertex differs or whose graph pointer differs compare
unequal and unordered whatever their ranks: `==` is false, `!=` is true, and
`<`, `<=`, `>`, `>=` are all false. The operators are total; those of
`VertexIterator` and `EdgeIterator` are these, inherited. -/
theorem comparison_across_ranges (a b : AdjacencyIterator)
    (h : a.vertex_ ≠ b.vertex_ ∨ a.graph_ ≠ b.graph_) :
    a.eq b = false ∧ a.ne b = true ∧ a.lt b = false ∧ a.le b = false ∧
      a.gt b = false ∧ a.ge b = false := by
  simp only [AdjacencyIterator.eq, AdjacencyIterator.ne, AdjacencyIterator.lt,
    AdjacencyIterator.le, AdjacencyIterator.gt, AdjacencyIterator.ge]
  rcases h with h | h <;> simp [h]

/-- C11, for the cursors of one graph at the vertices `0` and `1`, both at the
rank `2`. -/
theorem comparison_across_ranges_witness :
    ((AdjacencyIterator.mk 1 0 2).vertex_ ≠ (AdjacencyIterator.mk 1 1 2).vertex_ ∨
      (AdjacencyIterator.mk 1 0 2).graph_ ≠ (AdjacencyIterator.mk 1 1 2).graph_) ∧
    ((AdjacencyIterator.mk 1 0 2).eq (AdjacencyIterator.mk 1 1 2) = false ∧
      (AdjacencyIterator.mk 1 0 2).ne (AdjacencyIterator.mk 1 1 2) = true ∧
      (AdjacencyIterator.mk 1 0 2).lt (AdjacencyIterator.mk 1 1 2) = false ∧
      (AdjacencyIterator.mk 1 0 2).le (AdjacencyIterator.mk 1 1 2) = false ∧
      (AdjacencyIterator.mk 1 0 2).gt (AdjacencyIterator.mk 1 1 2) = false ∧
      (AdjacencyIterator.mk 1 0 2).ge (AdjacencyIterator.mk 1 1 2) = false) :=
  ⟨Or.inl (by decide),
    comparison_across_ranges (AdjacencyIterator.mk 1 0 2) (AdjacencyIterator.mk 1 1 2)
      (Or.inl (by decide))⟩

/-- C12: for two cursors of the same graph and vertex, each of `==`, `!=`, `<`,
`<=`, `>`, `>=` is the comparison of the ranks; exactly one of `a < b`,
`a == b`, `a > b` holds, `!=` is the negation of `==`, `<=` the negation of
`>`, and `<` is transitive. -/
theorem comparison_within_range (a b : AdjacencyIterator)
    (hg : a.graph_ = b.graph_) (hv : a.vertex_ = b.vertex_) :
    a.eq b = decide (a.adjacencyIndex_ = b.adjacencyIndex_) ∧
    a.ne b = decide (a.adjacencyIndex_ ≠ b.adjacencyIndex_) ∧
    a.lt b = decide (a.adjacencyIndex_ < b.adjacencyIndex_) ∧
    a.le b = decide (a.adjacencyIndex_ ≤ b.adjacencyIndex_) ∧
    a.gt b = decide (a.adjacencyIndex_ > b.adjacencyIndex_) ∧
    a.ge b = decide (a.adjacencyIndex_ ≥ b.adjacencyIndex_) ∧
    ((a.lt b = true ∧ a.eq b = false ∧ a.gt b = false) ∨
      (a.lt b = false ∧ a.eq b = true ∧ a.gt b = false) ∨
      (a.lt b = false ∧ a.eq b = false ∧ a.gt b = true)) ∧
    a.ne b = !a.eq b ∧
    a.le b = !a.gt b ∧
    (∀ c : AdjacencyIterator, a.lt b = true → b.lt c = true → a.lt c = true) := by
  simp only [AdjacencyIterator.eq, AdjacencyIterator.ne, AdjacencyIterator.lt,
    AdjacencyIterator.le, AdjacencyIterator.gt, AdjacencyIterator.ge, hg, hv, decide_True,
    Bool.and_true]
  refine ⟨trivial, ?_, trivial, trivial, trivial, trivial, ?_, ?_, ?_, ?_⟩
  · simp
  · rcases Nat.lt_trichotomy a.adjacencyIndex_ b.adjacencyIndex_ with h | h | h
    · left; simp [h]; omega
    · right; left; simp [h]
    · right; right; simp [h]; omega
  · simp
  · by_cases h : b.adjacencyIndex_ < a.adjacencyIndex_
    · simp [h]
    · simp [h]; omega
  · intro c h1 h2
    simp only [Bool.and_eq_true, decide_eq_true_eq] at h1 h2 ⊢
    refine ⟨⟨by omega, ?_⟩, ?_⟩
    · exact h2.1.2
    · exact h2.2

/-- C12, for the cursors of one graph and vertex at the ranks `1` and `2`. -/
theorem comparison_within_range_witness :
    ((AdjacencyIterator.mk 1 0 1).graph_ = (AdjacencyIterator.mk 1 0 2).graph_ ∧
      (AdjacencyIterator.mk 1 0 1).vertex_ = (AdjacencyIterator.mk 1 0 2).vertex_) ∧
    (AdjacencyIterator.mk 1 0 1).lt (AdjacencyIterator.mk 1 0 2) = decide (1 < 2) ∧
    (AdjacencyIterator.mk 1 0 1).eq (AdjacencyIterator.mk 1 0 2) = decide (1 = 2) :=
  ⟨⟨rfl, rfl⟩,
    (comparison_within_range (AdjacencyIterator.mk 1 0 1) (AdjacencyIterator.mk 1 0 2)
      rfl rfl).2.2.1,
    (comparison_within_range (AdjacencyIterator.mk 1 0 1) (AdjacencyIterator.mk 1 0 2)
      rfl rfl).1⟩

/-! ## The ranges of a vertex -/

theorem ofVertexIndex_eq (heap : Heap Visitor) (g : CompleteGraph Visitor) (this v r : Nat)
    (hload : heap.load this = some g) (hv : v < g.numberOfVertices_)
    (hr : r ≤ g.numberOfVertices_) :
    AdjacencyIterator.ofVertexIndex heap this v r = some ⟨this, v, r⟩ := by
  simp [AdjacencyIterator.ofVertexIndex, hload, CompleteGraph.numberOfVertices, hv, hr]

theorem iterate_preIncrement (this v k : Nat) (hk : k < SizeT.modulus) :
    AdjacencyIterator.preIncrement^[k] ⟨this, v, 0⟩ = ⟨this, v, k⟩ := by
  induction k with
  | zero => rfl
  | succ k ih =>
    rw [Function.iterate_succ_apply', ih (by omega)]
    simp only [AdjacencyIterator.preIncrement, SizeT.sizeT_add_eq k 1 hk]

/-- C13: for a vertex `v < n` of the graph at the address `this`, and for each
of the three projections, the `ToVertex` begin and end cursors are the
`FromVertex` ones, the begin cursor has the rank `0`, the end cursor the rank
`numberOfEdgesFromVertex(v) == numberOfEdgesToVertex(v) == n - 1`: it is the
begin cursor advanced by `n - 1`, reached from it by `n - 1` increments and by
no fewer. -/
theorem range_factories (heap : Heap Visitor) (g : CompleteGraph Visitor) (this v : Nat)
    (hn : g.numberOfVertices_ < SizeT.modulus) (hload : heap.load this = some g)
    (hv : v < g.numberOfVertices_) :
    (g.numberOfEdgesFromVertex v = some (g.numberOfVertices_ - 1) ∧
      g.numberOfEdgesToVertex v = some (g.numberOfVertices_ - 1)) ∧
    (CompleteGraph.verticesFromVertexBegin heap this v = some ⟨⟨this, v, 0⟩⟩ ∧
      CompleteGraph.verticesFromVertexEnd heap this v
        = some ⟨⟨this, v, g.numberOfVertices_ - 1⟩⟩ ∧
      CompleteGraph.verticesToVertexBegin heap this v
        = CompleteGraph.verticesFromVertexBegin heap this v ∧
      CompleteGraph.verticesToVertexEnd heap this v
        = CompleteGraph.verticesFromVertexEnd heap this v) ∧
    (CompleteGraph.edgesFromVertexBegin heap this v = some ⟨⟨this, v, 0⟩⟩ ∧
      CompleteGraph.edgesFromVertexEnd heap this v
        = some ⟨⟨this, v, g.numberOfVertices_ - 1⟩⟩ ∧
      CompleteGraph.edgesToVertexBegin heap this v
        = CompleteGraph.edgesFromVertexBegin heap this v ∧
      CompleteGraph.edgesToVertexEnd heap this v
        = CompleteGraph.edgesFromVertexEnd heap this v) ∧
    (CompleteGraph.adjacenciesFromVertexBegin heap this v = some ⟨this, v, 0⟩ ∧
      CompleteGraph.adjacenciesFromVertexEnd heap this v
        = some ⟨this, v, g.numberOfVertices_ - 1⟩ ∧
      CompleteGraph.adjacenciesToVertexBegin heap this v
        = CompleteGraph.adjacenciesFromVertexBegin heap this v ∧
      CompleteGraph.adjacenciesToVertexEnd heap this v
        = CompleteGraph.adjacenciesFromVertexEnd heap this v) ∧
    ((AdjacencyIterator.mk this v 0).plus ((g.numberOfVertices_ - 1 : Nat) : Int)
        = ⟨this, v, g.numberOfVertices_ - 1⟩ ∧
      (VertexIterator.mk ⟨this, v, 0⟩).plusAssign ((g.numberOfVertices_ - 1 : Nat) : Int)
        = ⟨⟨this, v, g.numberOfVertices_ - 1⟩⟩ ∧
      (EdgeIterator.mk ⟨this, v, 0⟩).plusAssign ((g.numberOfVertices_ - 1 : Nat) : Int)
        = ⟨⟨this, v, g.numberOfVertices_ - 1⟩⟩) ∧
    (∀ k, k ≤ g.numberOfVertices_ - 1 →
      AdjacencyIterator.preIncrement^[k] ⟨this, v, 0⟩ = ⟨this, v, k⟩ ∧
      VertexIterator.preIncrement^[k] ⟨⟨this, v, 0⟩⟩ = ⟨⟨this, v, k⟩⟩ ∧
      EdgeIterator.preIncrement^[k] ⟨⟨this, v, 0⟩⟩ = ⟨⟨this, v, k⟩⟩ ∧
      ((AdjacencyIterator.preIncrement^[k] ⟨this, v, 0⟩).eq
          ⟨this, v, g.numberOfVertices_ - 1⟩ = true ↔ k = g.numberOfVertices_ - 1)) := by
  have hfrom := CompleteGraph.numberOfEdgesFromVertex_eq g v hn hv
  have hto := CompleteGraph.numberOfEdgesToVertex_eq g v hn hv
  have hb := ofVertexIndex_eq heap g this v 0 hload hv (by omega)
  have he := ofVertexIndex_eq heap g this v (g.numberOfVertices_ - 1) hload hv (by omega)
  have hadv : SizeT.addDiff 0 ((g.numberOfVertices_ - 1 : Nat) : Int) = g.numberOfVertices_ - 1 := by
    unfold SizeT.addDiff SizeT.modulus at *
    omega
  refine ⟨⟨hfrom, hto⟩, ⟨?_, ?_, rfl, rfl⟩, ⟨?_, ?_, rfl, rfl⟩, ⟨?_, ?_, rfl, rfl⟩,
    ⟨?_, ?_, ?_⟩, ?_⟩
  · simp [CompleteGraph.verticesFromVertexBegin, VertexIterator.ofVertexIndex, hb]
  · simp [CompleteGraph.verticesFromVertexEnd, VertexIterator.ofVertexIndex, hload, hfrom, he]
  · simp [CompleteGraph.edgesFromVertexBegin, EdgeIterator.ofVertexIndex, hb]
  · simp [CompleteGraph.edgesFromVertexEnd, EdgeIterator.ofVertexIndex, hload, hfrom, he]
  · simp [CompleteGraph.adjacenciesFromVertexBegin, hb]
  · simp [CompleteGraph.adjacenciesFromVertexEnd, hload, hfrom, he]
  · simp only [AdjacencyIterator.plus, AdjacencyIterator.plusAssign, hadv]
  · simp only [VertexIterator.plusAssign, AdjacencyIterator.plusAssign, hadv]
  · simp only [EdgeIterator.plusAssign, AdjacencyIterator.plusAssign, hadv]
  · intro k hk
    have hit := iterate_preIncrement this v k (by omega)
    refine ⟨hit, ?_, ?_, ?_⟩
    · clear hit
      induction k with
      | zero => rfl
      | succ k ih =>
        rw [Function.iterate_succ_apply', ih (by omega)]
        simp only [VertexIterator.preIncrement, AdjacencyIterator.preIncrement,
          SizeT.sizeT_add_eq k 1 (by omega)]
    · clear hit
      induction k with
      | zero => rfl
      | succ k ih =>
        rw [Function.iterate_succ_apply', ih (by omega)]
        simp only [EdgeIterator.preIncrement, AdjacencyIterator.preIncrement,
          SizeT.sizeT_add_eq k 1 (by omega)]
    · rw [hit]
      simp [AdjacencyIterator.eq]

/-- C13, on four vertices for the graph at the address `1` and the vertex `2`. -/
theorem range_factories_witness :
    ((CompleteGraph.constructN 4 ()).numberOfVertices_ < SizeT.modulus ∧
      (Heap.single 1 (CompleteGraph.constructN 4 ())).load 1 = some (CompleteGraph.constructN 4 ()) ∧
      2 < (CompleteGraph.constructN 4 ()).numberOfVertices_) ∧
    (CompleteGraph.verticesFromVertexBegin (Heap.single 1 (CompleteGraph.constructN 4 ())) 1 2
        = some ⟨⟨1, 2, 0⟩⟩ ∧
      CompleteGraph.verticesFromVertexEnd (Heap.single 1 (CompleteGraph.constructN 4 ())) 1 2
        = some ⟨⟨1, 2, 4 - 1⟩⟩ ∧
      CompleteGraph.verticesToVertexBegin (Heap.single 1 (CompleteGraph.constructN 4 ())) 1 2
        = CompleteGraph.verticesFromVertexBegin (Heap.single 1 (CompleteGraph.constructN 4 ())) 1 2 ∧
      CompleteGraph.verticesToVertexEnd (Heap.single 1 (CompleteGraph.constructN 4 ())) 1 2
        = CompleteGraph.verticesFromVertexEnd (Heap.single 1 (CompleteGraph.constructN 4 ())) 1 2) :=
  ⟨⟨by decide, rfl, by decide⟩,
    (range_factories (Heap.single 1 (CompleteGraph.constructN 4 ())) (CompleteGraph.constructN 4 ())
      1 2 (by decide) rfl (by decide)).2.1⟩

/-! ## Construction and assignment -/

/-- C14: whatever the state of `g`, after `g.assign(m, vis)` the graph is the
graph `CompleteGraph(m, vis)`, so every query returns on both what it returns
on the other; likewise `g.assign(vis)` gives `CompleteGraph(vis)`, with no
vertex. -/
theorem assign_eq_construct (g : CompleteGraph Visitor) (m : Nat) (vis : Visitor) :
    g.assignN m vis = CompleteGraph.constructN m vis ∧
    g.assign vis = CompleteGraph.construct vis ∧
    (g.assign vis).numberOfVertices = 0 ∧
    (g.assignN m vis).numberOfVertices = (CompleteGraph.constructN m vis).numberOfVertices ∧
    (g.assignN m vis).numberOfVertices = m ∧
    (g.assignN m vis).numberOfEdges = (CompleteGraph.constructN m vis).numberOfEdges ∧
    (∀ v0 v1, (g.assignN m vis).findEdge v0 v1 = (CompleteGraph.constructN m vis).findEdge v0 v1) ∧
    (∀ v j, (g.assignN m vis).vertexFromVertex v j
      = (CompleteGraph.constructN m vis).vertexFromVertex v j) ∧
    (∀ v j, (g.assignN m vis).edgeFromVertex v j
      = (CompleteGraph.constructN m vis).edgeFromVertex v j) ∧
    (∀ v j, (g.assignN m vis).adjacencyFromVertex v j
      = (CompleteGraph.constructN m vis).adjacencyFromVertex v j) ∧
    (∀ e j, (g.assignN m vis).vertexOfEdge e j = (CompleteGraph.constructN m vis).vertexOfEdge e j) :=
  ⟨rfl, rfl, rfl, rfl, rfl, rfl, fun _ _ => rfl, fun _ _ => rfl, fun _ _ => rfl, fun _ _ => rfl,
    fun _ _ => rfl⟩

/-- C15 (as stated): after `assign(5, visitor)` with a visitor that has received
no event, the visitor of the graph has still received none, while one "vertex
count changed" event would leave it with the event `5`. -/
theorem assign_invokes_no_hook :
    ((CompleteGraph.constructN 3 (RecordingVisitor.mk [])).assignN 5
      (RecordingVisitor.mk [])).numberOfVertices_ = 5 ∧
    ((CompleteGraph.constructN 3 (RecordingVisitor.mk [])).assignN 5
      (RecordingVisitor.mk [])).visitor_.events = [] ∧
    ((RecordingVisitor.mk []).vertexCountChanged 5).events = [5] := by
  decide

/-- C15 (amended): `assign(n, visitor)` sets the vertex count to `n` and stores
the visitor as it was passed; no member of the visitor is called, so a visitor
that records events has received after the assignment the events it had
received before, and no more. -/
theorem assign_stores_visitor (g : CompleteGraph Visitor) (n : Nat) (vis : Visitor) :
    (g.assignN n vis).numberOfVertices_ = n ∧ (g.assignN n vis).visitor_ = vis ∧
    (g.assign vis).numberOfVertices_ = 0 ∧ (g.assign vis).visitor_ = vis ∧
    (∀ (h : CompleteGraph RecordingVisitor) (r : RecordingVisitor),
      (h.assignN n r).visitor_.events = r.events ∧
      (h.assignN n r).visitor_ ≠ r.vertexCountChanged n) := by
  refine ⟨rfl, rfl, rfl, rfl, ?_⟩
  intro h r
  refine ⟨rfl, ?_⟩
  intro hcon
  have hev := congrArg RecordingVisitor.events hcon
  simp [CompleteGraph.assignN, RecordingVisitor.vertexCountChanged] at hev

/-- C17 (fails on the code): for the graph on four vertices at the address `1`,
the three-argument constructors of the three cursors accept the rank `4`, and
reject the rank `5`; the end cursor of a vertex has the rank `3`. -/
theorem ofVertexIndex_accepts_rank_n :
    AdjacencyIterator.ofVertexIndex (Heap.single 1 (CompleteGraph.constructN 4 ())) 1 0 4
      = some ⟨1, 0, 4⟩ ∧
    VertexIterator.ofVertexIndex (Heap.single 1 (CompleteGraph.constructN 4 ())) 1 0 4
      = some ⟨⟨1, 0, 4⟩⟩ ∧
    EdgeIterator.ofVertexIndex (Heap.single 1 (CompleteGraph.constructN 4 ())) 1 0 4
      = some ⟨⟨1, 0, 4⟩⟩ ∧
    AdjacencyIterator.ofVertexIndex (Heap.single 1 (CompleteGraph.constructN 4 ())) 1 0 5 = none ∧
    CompleteGraph.adjacenciesFromVertexEnd (Heap.single 1 (CompleteGraph.constructN 4 ())) 1 0
      = some ⟨1, 0, 3⟩ ∧
    (AdjacencyIterator.mk 1 0 4).deref (Heap.single 1 (CompleteGraph.constructN 4 ())) = none := by
  decide

/-- What the three-argument constructor accepts: a vertex of the graph and a
rank up to the vertex count, included. -/
theorem ofVertexIndex_isSome_iff (heap : Heap Visitor) (g : CompleteGraph Visitor)
    (this v r : Nat) (hload : heap.load this = some g) :
    (∃ it, AdjacencyIterator.ofVertexIndex heap this v r = some it) ↔
      v < g.numberOfVertices_ ∧ r ≤ g.numberOfVertices_ := by
  simp only [AdjacencyIterator.ofVertexIndex, hload, CompleteGraph.numberOfVertices]
  by_cases hv : v < g.numberOfVertices_ <;> by_cases hr : r ≤ g.numberOfVertices_ <;>
    simp [hv, hr]

/-! ## Cursor arithmetic -/

theorem subDiff_addDiff (a : Nat) (d : Int) (h : a < SizeT.modulus) :
    SizeT.subDiff (SizeT.addDiff a d) d = a := by
  unfold SizeT.subDiff SizeT.addDiff SizeT.modulus at *
  omega

theorem addDiff_subDiff (a : Nat) (d : Int) (h : a < SizeT.modulus) :
    SizeT.addDiff (SizeT.subDiff a d) d = a := by
  unfold SizeT.subDiff SizeT.addDiff SizeT.modulus at *
  omega

theorem sub_one_add_one (a : Nat) (h : a < SizeT.modulus) :
    SizeT.sub (SizeT.add a 1) 1 = a ∧ SizeT.add (SizeT.sub a 1) 1 = a := by
  unfold SizeT.sub SizeT.add SizeT.modulus at *
  omega

theorem add_one_eq_addDiff (a : Nat) :
    SizeT.add a 1 = SizeT.addDiff a 1 ∧ SizeT.sub a 1 = SizeT.subDiff a 1 := by
  unfold SizeT.sub SizeT.add SizeT.addDiff SizeT.subDiff SizeT.modulus
  omega

/-- C18: for a cursor `c` (its rank a `std::size_t`) and a signed offset `d`,
`(c + d) - d == c` and `(c - d) + d == c`; `++` then `--`, and `--` then `++`,
restore `c`; the postfix forms return `c` and leave the cursor at `c + 1`,
resp. `c - 1`; no operation changes the vertex or the graph pointer. The same
holds of the operators applied in place to a `VertexIterator` or an
`EdgeIterator`, which inherit them. -/
theorem cursor_advance_retreat (c : AdjacencyIterator) (d : Int)
    (h : c.adjacencyIndex_ < SizeT.modulus) :
    ((c.plus d).minus d = c ∧ (c.minus d).plus d = c ∧
      ((c.plus d).minus d).eq c = true ∧ ((c.minus d).plus d).eq c = true) ∧
    ((c.plusAssign d).minusAssign d = c ∧ (c.minusAssign d).plusAssign d = c) ∧
    (c.preIncrement.preDecrement = c ∧ c.preDecrement.preIncrement = c) ∧
    (c.postIncrement.1 = c ∧ c.postIncrement.2 = c.plus 1 ∧
      c.postDecrement.1 = c ∧ c.postDecrement.2 = c.minus 1) ∧
    ((c.plus d).vertex_ = c.vertex_ ∧ (c.plus d).graph_ = c.graph_ ∧
      (c.minus d).vertex_ = c.vertex_ ∧ (c.minus d).graph_ = c.graph_ ∧
      (c.plusAssign d).vertex_ = c.vertex_ ∧ (c.plusAssign d).graph_ = c.graph_ ∧
      (c.minusAssign d).vertex_ = c.vertex_ ∧ (c.minusAssign d).graph_ = c.graph_ ∧
      c.preIncrement.vertex_ = c.vertex_ ∧ c.preIncrement.graph_ = c.graph_ ∧
      c.preDecrement.vertex_ = c.vertex_ ∧ c.preDecrement.graph_ = c.graph_ ∧
      c.postIncrement.2.vertex_ = c.vertex_ ∧ c.postIncrement.2.graph_ = c.graph_ ∧
      c.postDecrement.2.vertex_ = c.vertex_ ∧ c.postDecrement.2.graph_ = c.graph_) ∧
    (((VertexIterator.mk c).plusAssign d).minusAssign d = VertexIterator.mk c ∧
      ((VertexIterator.mk c).minusAssign d).plusAssign d = VertexIterator.mk c ∧
      (VertexIterator.mk c).preIncrement.preDecrement = VertexIterator.mk c ∧
      (VertexIterator.mk c).preDecrement.preIncrement = VertexIterator.mk c ∧
      (VertexIterator.mk c).postIncrement.1 = c ∧
      (VertexIterator.mk c).postIncrement.2 = (VertexIterator.mk c).plusAssign 1 ∧
      (VertexIterator.mk c).postDecrement.1 = c ∧
      (VertexIterator.mk c).postDecrement.2 = (VertexIterator.mk c).minusAssign 1) ∧
    (((EdgeIterator.mk c).plusAssign d).minusAssign d = EdgeIterator.mk c ∧
      ((EdgeIterator.mk c).minusAssign d).plusAssign d = EdgeIterator.mk c ∧
      (EdgeIterator.mk c).preIncrement.preDecrement = EdgeIterator.mk c ∧
      (EdgeIterator.mk c).preDecrement.preIncrement = EdgeIterator.mk c ∧
      (EdgeIterator.mk c).postIncrement.1 = c ∧
      (EdgeIterator.mk c).postIncrement.2 = (EdgeIterator.mk c).plusAssign 1 ∧
      (EdgeIterator.mk c).postDecrement.1 = c ∧
      (EdgeIterator.mk c).postDecrement.2 = (EdgeIterator.mk c).minusAssign 1) := by
  obtain ⟨graph, vertex, rank⟩ := c
  simp only at h
  have h1 := subDiff_addDiff rank d h
  have h2 := addDiff_subDiff rank d h
  have h3 := sub_one_add_one rank h
  have h4 := add_one_eq_addDiff rank
  simp [AdjacencyIterator.plus, AdjacencyIterator.minus, AdjacencyIterator.plusAssign,
    AdjacencyIterator.minusAssign, AdjacencyIterator.preIncrement,
    AdjacencyIterator.preDecrement, AdjacencyIterator.postIncrement,
    AdjacencyIterator.postDecrement, AdjacencyIterator.eq, VertexIterator.plusAssign,
    VertexIterator.minusAssign, VertexIterator.preIncrement, VertexIterator.preDecrement,
    VertexIterator.postIncrement, VertexIterator.postDecrement, EdgeIterator.plusAssign,
    EdgeIterator.minusAssign, EdgeIterator.preIncrement, EdgeIterator.preDecrement,
    EdgeIterator.postIncrement, EdgeIterator.postDecrement, h1, h2, h3.1, h3.2, h4.1.symm, h4.2.symm]

/-- C18, for the cursor at the rank `0` and the offset `-1`, which wraps around
and comes back. -/
theorem cursor_advance_retreat_witness :
    (AdjacencyIterator.mk 1 2 0).adjacencyIndex_ < SizeT.modulus ∧
    ((AdjacencyIterator.mk 1 2 0).plus (-1)).minus (-1) = AdjacencyIterator.mk 1 2 0 ∧
    ((AdjacencyIterator.mk 1 2 0).minus (-1)).plus (-1) = AdjacencyIterator.mk 1 2 0 ∧
    (((AdjacencyIterator.mk 1 2 0).plus (-1)).minus (-1)).eq (AdjacencyIterator.mk 1 2 0) = true ∧
    (((AdjacencyIterator.mk 1 2 0).minus (-1)).plus (-1)).eq (AdjacencyIterator.mk 1 2 0) = true :=
  ⟨by decide, (cursor_advance_retreat (AdjacencyIterator.mk 1 2 0) (-1) (by decide)).1⟩

/-! ## Checked mode -/

namespace CompleteGraph

variable {Visitor : Type}

/-- The `float` part of `vertexOfEdge`: past the two assertions the function
takes the square root of `radicandOfEdge`, which is a NaN when the radicand is
negative, and the conversion of a NaN to `std::size_t` is undefined. -/
theorem vertex0OfEdge_of_radicand_neg (g : CompleteGraph Visitor) (e : Nat)
    (h : (g.radicandOfEdge e).m < 0) : g.vertex0OfEdge e = none := by
  have hs : F32.sqrt (g.radicandOfEdge e) = none := by
    unfold F32.sqrt
    rw [if_pos h]
  unfold vertex0OfEdge
  rw [hs]
  rfl

/-- The two assertions of `vertexOfEdge` are its only failures: it returns a
value exactly when `edgeIndex < numberOfEdges()` and `j < 2`. -/
theorem vertexOfEdge_eq_none_iff (g : CompleteGraph Visitor) (e j : Nat) :
    g.vertexOfEdge e j = none ↔ (g.numberOfEdges ≤ e ∨ 2 ≤ j) := by
  unfold vertexOfEdge
  by_cases he : e < g.numberOfEdges
  · by_cases hj : j < 2
    · rw [if_neg (not_not.mpr he), if_neg (not_not.mpr hj)]
      by_cases h0 : j = 0
      · rw [if_pos h0]
        constructor
        · intro h
          exact absurd h (by simp only [reduceCtorEq, not_false_eq_true])
        · intro h
          omega
      · rw [if_neg h0]
        constructor
        · intro h
          exact absurd h (by simp only [reduceCtorEq, not_false_eq_true])
        · intro h
          omega
    · rw [if_neg (not_not.mpr he), if_pos hj]
      exact ⟨fun _ => Or.inr (by omega), fun _ => rfl⟩
  · rw [if_pos he]
    exact ⟨fun _ => Or.inl (by omega), fun _ => rfl⟩

/-- The assertions of the public members: each one fails exactly when an
argument is out of range, and the member returns a value otherwise. -/
theorem checked_mode_assertions (g : CompleteGraph Visitor)
    (hn : g.numberOfVertices_ < SizeT.modulus) :
    (∀ v0 v1, g.findEdge v0 v1 = none ↔
      (g.numberOfVertices_ ≤ v0 ∨ g.numberOfVertices_ ≤ v1)) ∧
    (∀ v j, g.vertexFromVertex v j = none ↔
      (g.numberOfVertices_ ≤ v ∨ g.numberOfVertices_ - 1 ≤ j)) ∧
    (∀ v j, g.edgeFromVertex v j = none ↔
      (g.numberOfVertices_ ≤ v ∨ g.numberOfVertices_ - 1 ≤ j)) ∧
    (∀ v j, g.adjacencyFromVertex v j = none ↔
      (g.numberOfVertices_ ≤ v ∨ g.numberOfVertices_ - 1 ≤ j)) ∧
    (∀ v, g.numberOfEdgesFromVertex v = none ↔ g.numberOfVertices_ ≤ v) ∧
    (∀ e j, g.vertexOfEdge e j = none ↔ (g.numberOfEdges ≤ e ∨ 2 ≤ j)) := by
  have hdeg : ∀ v, ¬ v < g.numberOfVertices_ → g.numberOfEdgesFromVertex v = none := by
    intro v hv
    simp [numberOfEdgesFromVertex, numberOfVertices, hv]
  have hdeg' : ∀ v, ¬ v < g.numberOfVertices_ → g.numberOfEdgesToVertex v = none := by
    intro v hv
    simp [numberOfEdgesToVertex, numberOfVertices, hv]
  have hrank : ∀ v j, v < g.numberOfVertices_ → j < g.numberOfVertices_ - 1 →
      ∃ u e, g.vertexFromVertex v j = some u ∧ g.edgeFromVertex v j = some e ∧
        g.adjacencyFromVertex v j = some ⟨u, e⟩ := by
    intro v j hv hj
    obtain ⟨u, e, _, _, _, h1, h2, h3⟩ := rank_projections g v j hn hv hj
    exact ⟨u, e, h1, h2, h3⟩
  refine ⟨?_, ?_, ?_, ?_, ?_, ?_⟩
  · intro v0 v1
    by_cases h0 : v0 < g.numberOfVertices_
    · by_cases h1 : v1 < g.numberOfVertices_
      · rcases Nat.lt_trichotomy v0 v1 with h | h | h
        · obtain ⟨e, he⟩ := edgeOfStrictlyIncreasingPairOfVertices_isSome g v0 v1 h h1
          rw [findEdge_of_lt g v0 v1 h h1, he]
          simp; omega
        · subst h
          simp [findEdge, numberOfVertices, h0]
        · obtain ⟨e, he⟩ := edgeOfStrictlyIncreasingPairOfVertices_isSome g v1 v0 h h0
          rw [findEdge_of_gt g v0 v1 h h0, he]
          simp; omega
      · simp [findEdge, numberOfVertices, h0, h1]; omega
    · simp [findEdge, numberOfVertices, h0]; omega
  · intro v j
    by_cases hv : v < g.numberOfVertices_
    · by_cases hj : j < g.numberOfVertices_ - 1
      · obtain ⟨u, e, h1, _, _⟩ := hrank v j hv hj
        rw [h1]; simp; omega
      · simp [vertexFromVertex, numberOfEdgesFromVertex_eq g v hn hv, hj]; omega
    · simp [vertexFromVertex, hdeg v hv]; omega
  · intro v j
    by_cases hv : v < g.numberOfVertices_
    · by_cases hj : j < g.numberOfVertices_ - 1
      · obtain ⟨u, e, _, h2, _⟩ := hrank v j hv hj
        rw [h2]; simp; omega
      · simp [edgeFromVertex, numberOfEdgesFromVertex_eq g v hn hv, hj]; omega
    · simp [edgeFromVertex, hdeg v hv]; omega
  · intro v j
    by_cases hv : v < g.numberOfVertices_
    · by_cases hj : j < g.numberOfVertices_ - 1
      · obtain ⟨u, e, _, _, h3⟩ := hrank v j hv hj
        rw [h3]; simp; omega
      · simp [adjacencyFromVertex, numberOfEdgesToVertex_eq g v hn hv, hj]; omega
    · simp [adjacencyFromVertex, hdeg' v hv]; omega
  · intro v
    by_cases hv : v < g.numberOfVertices_
    · simp [numberOfEdgesFromVertex, numberOfVertices, hv]
    · simp [hdeg v hv]; omega
  · intro e j
    exact vertexOfEdge_eq_none_iff g e j

end CompleteGraph

/-- The `float` values of `vertexOfEdge(35184376283135, j)` on `2 ^ 23 + 1`
vertices: `2 * n - 1 = 2 ^ 24 + 1` rounds to `2 ^ 24`, so `p = 2 ^ 23` and
`p * p = 2 ^ 46`; the edge index rounds to `2 ^ 45 + 2 ^ 22`, so
`q = 2 ^ 46 + 2 ^ 23`; the radicand is `-(2 ^ 23)` and its square root a NaN. -/
theorem vertexOfEdge_nan_trace :
    F32.div2 (F32.ofNat (SizeT.sub (SizeT.mul 8388609 2) 1)) = ⟨8388608, 0⟩ ∧
    F32.mul ⟨8388608, 0⟩ ⟨8388608, 0⟩ = ⟨8388608, 23⟩ ∧
    F32.ofNat 35184376283135 = ⟨8388609, 22⟩ ∧
    F32.mul ⟨8388609, 22⟩ (F32.ofNat 2) = ⟨8388609, 23⟩ ∧
    F32.sub ⟨8388608, 23⟩ ⟨8388609, 23⟩ = ⟨-1, 23⟩ ∧
    F32.sqrt ⟨-1, 23⟩ = none := by
  decide

/-- The call `vertexOfEdge(35184376283135, j)` on `2 ^ 23 + 1` vertices: the
edge is the last one, no assertion fails, the conversion of the NaN to
`vertex0` is undefined, and the function returns the value that the conversion
delivers, `2 ^ 63`, for `j = 0`, and `2 ^ 62 + 35184376283136` for `j = 1`. -/
theorem vertexOfEdge_nan_value :
    (CompleteGraph.constructN 8388609 ()).numberOfEdges = 35184376283136 ∧
    (CompleteGraph.constructN 8388609 ()).findEdge 8388607 8388608
      = some (true, 35184376283135) ∧
    (CompleteGraph.constructN 8388609 ()).radicandOfEdge 35184376283135 = ⟨-1, 23⟩ ∧
    (CompleteGraph.constructN 8388609 ()).vertex0OfEdge 35184376283135 = none ∧
    (CompleteGraph.constructN 8388609 ()).vertexOfEdge 35184376283135 0
      = some 9223372036854775808 ∧
    (CompleteGraph.constructN 8388609 ()).vertexOfEdge 35184376283135 1
      = some 4611721202803671040 := by
  decide

/-- C16: with assertions modelled as errors, each member fails exactly on a
violated precondition and returns a value on every other input:
`findEdge(v0, v1)` fails iff `v0 >= n` or `v1 >= n`; `vertexFromVertex(v, j)`,
`edgeFromVertex(v, j)` and `adjacencyFromVertex(v, j)` fail iff `v >= n` or
`j >= n - 1`; `numberOfEdgesFromVertex(v)` fails iff `v >= n`;
`vertexOfEdge(e, j)` fails iff `e >= numberOfEdges()` or `j >= 2`. -/
theorem checked_mode_fails_iff_precondition (g : CompleteGraph Visitor)
    (hn : g.numberOfVertices_ < SizeT.modulus) :
    (∀ v0 v1, (g.findEdge v0 v1 = none ↔
        (g.numberOfVertices_ ≤ v0 ∨ g.numberOfVertices_ ≤ v1)) ∧
      (v0 < g.numberOfVertices_ → v1 < g.numberOfVertices_ →
        ∃ r, g.findEdge v0 v1 = some r)) ∧
    (∀ v j, (g.vertexFromVertex v j = none ↔
        (g.numberOfVertices_ ≤ v ∨ g.numberOfVertices_ - 1 ≤ j)) ∧
      (v < g.numberOfVertices_ → j < g.numberOfVertices_ - 1 →
        ∃ u, g.vertexFromVertex v j = some u)) ∧
    (∀ v j, (g.edgeFromVertex v j = none ↔
        (g.numberOfVertices_ ≤ v ∨ g.numberOfVertices_ - 1 ≤ j)) ∧
      (v < g.numberOfVertices_ → j < g.numberOfVertices_ - 1 →
        ∃ e, g.edgeFromVertex v j = some e)) ∧
    (∀ v j, (g.adjacencyFromVertex v j = none ↔
        (g.numberOfVertices_ ≤ v ∨ g.numberOfVertices_ - 1 ≤ j)) ∧
      (v < g.numberOfVertices_ → j < g.numberOfVertices_ - 1 →
        ∃ a, g.adjacencyFromVertex v j = some a)) ∧
    (∀ v, (g.numberOfEdgesFromVertex v = none ↔ g.numberOfVertices_ ≤ v) ∧
      (v < g.numberOfVertices_ → ∃ d, g.numberOfEdgesFromVertex v = some d)) ∧
    (∀ e j, (g.vertexOfEdge e j = none ↔ (g.numberOfEdges ≤ e ∨ 2 ≤ j)) ∧
      (e < g.numberOfEdges → j < 2 → ∃ v, g.vertexOfEdge e j = some v)) := by
  obtain ⟨h1, h2, h3, h4, h5, h6⟩ := CompleteGraph.checked_mode_assertions g hn
  refine ⟨fun v0 v1 => ⟨h1 v0 v1, fun a b => ?_⟩, fun v j => ⟨h2 v j, fun a b => ?_⟩,
    fun v j => ⟨h3 v j, fun a b => ?_⟩, fun v j => ⟨h4 v j, fun a b => ?_⟩,
    fun v => ⟨h5 v, fun a => ?_⟩, fun e j => ⟨h6 e j, fun a b => ?_⟩⟩
  · exact Option.ne_none_iff_exists'.mp (fun h => by have := (h1 v0 v1).mp h; omega)
  · exact Option.ne_none_iff_exists'.mp (fun h => by have := (h2 v j).mp h; omega)
  · exact Option.ne_none_iff_exists'.mp (fun h => by have := (h3 v j).mp h; omega)
  · exact Option.ne_none_iff_exists'.mp (fun h => by have := (h4 v j).mp h; omega)
  · exact Option.ne_none_iff_exists'.mp (fun h => by have := (h5 v).mp h; omega)
  · exact Option.ne_none_iff_exists'.mp (fun h => by have := (h6 e j).mp h; omega)

/-- C16, on `2 ^ 23 + 1` vertices: `vertexOfEdge` fails exactly on
`e >= numberOfEdges()` or `j >= 2`; at the last edge, where the radicand is
negative, no assertion fails and a value is returned. -/
theorem checked_mode_fails_iff_precondition_witness :
    (CompleteGraph.constructN 8388609 ()).numberOfVertices_ < SizeT.modulus ∧
    (∀ e j, ((CompleteGraph.constructN 8388609 ()).vertexOfEdge e j = none ↔
        ((CompleteGraph.constructN 8388609 ()).numberOfEdges ≤ e ∨ 2 ≤ j)) ∧
      (e < (CompleteGraph.constructN 8388609 ()).numberOfEdges → j < 2 →
        ∃ v, (CompleteGraph.constructN 8388609 ()).vertexOfEdge e j = some v)) ∧
    (CompleteGraph.constructN 8388609 ()).vertexOfEdge 35184376283135 0
      = some 9223372036854775808 ∧
    (CompleteGraph.constructN 8388609 ()).vertexOfEdge 35184376283136 0 = none ∧
    (CompleteGraph.constructN 8388609 ()).vertexOfEdge 35184376283135 2 = none :=
  ⟨by decide,
    (checked_mode_fails_iff_precondition (CompleteGraph.constructN 8388609 ()) (by decide)).2.2.2.2.2,
    by decide, by decide, by decide⟩

/-! ## The inverse in exact arithmetic -/

/-- The bin of the lower endpoint `v0`, without division: for `v0 < v1 < n` the
doubled index lies between `v0 * (2 * n - 1 - v0)` and
`(v0 + 1) * (2 * n - 2 - v0)`. -/
theorem pairIndex_bin (n v0 v1 : Nat) (h01 : v0 < v1) (h1 : v1 < n) :
    (v0 : Int) * (2 * n - 1 - v0) ≤ 2 * (pairIndex n v0 v1 : Int) ∧
      2 * (pairIndex n v0 v1 : Int) < (v0 + 1) * (2 * n - 2 - v0) := by
  have h := two_mul_pairIndex n v0 v1 h01 h1
  have a : (v0 : Int) + 1 ≤ v1 := by omega
  have b : (v1 : Int) ≤ n - 1 := by omega
  constructor <;> nlinarith

/-- A lower endpoint lies below `n - 1`, and the bins of two lower endpoints do
not overlap. -/
theorem bin_unique (n e v w : Nat)
    (hv1 : (v : Int) * (2 * n - 1 - v) ≤ 2 * e) (hv2 : 2 * (e : Int) < (v + 1) * (2 * n - 2 - v))
    (hw1 : (w : Int) * (2 * n - 1 - w) ≤ 2 * e) (hw2 : 2 * (e : Int) < (w + 1) * (2 * n - 2 - w)) :
    v + 2 ≤ n ∧ w = v := by
  have hvn : (v : Int) + 2 ≤ n := by nlinarith
  have hwn : (w : Int) + 2 ≤ n := by nlinarith
  refine ⟨by omega, ?_⟩
  by_contra hne
  rcases Nat.lt_or_gt_of_ne hne with h | h
  · have a1 : (0 : Int) ≤ (v : Int) - (w + 1) := by omega
    have a2 : (0 : Int) ≤ 2 * (n : Int) - 1 - (w + 1) - v := by omega
    have := mul_nonneg a1 a2
    nlinarith
  · have a1 : (0 : Int) ≤ (w : Int) - (v + 1) := by omega
    have a2 : (0 : Int) ≤ 2 * (n : Int) - 1 - (v + 1) - w := by omega
    have := mul_nonneg a1 a2
    nlinarith

/-- C19: for `n ≥ 2` and an edge index `e < n * (n - 1) / 2`, with
`p = (2 * n - 1) / 2` and the square root taken over the reals, `p * p - 2 * e`
is positive and `floor(p - sqrt(p * p - 2 * e))` is a vertex `v0 ≤ n - 2` with
`v0 * (2 * n - 1 - v0) / 2 ≤ e < (v0 + 1) * (2 * n - 2 - v0) / 2`, the only one,
and the lower endpoint of the pair whose edge index is `e`. -/
theorem nominal_inverse_exact (n e : Nat) (hn : 2 ≤ n) (he : e < n * (n - 1) / 2) :
    0 < (2 * (n : Real) - 1) / 2 * ((2 * (n : Real) - 1) / 2) - 2 * (e : Real) ∧
    ∃ v0 : Nat,
      Int.floor ((2 * (n : Real) - 1) / 2
        - Real.sqrt ((2 * (n : Real) - 1) / 2 * ((2 * (n : Real) - 1) / 2) - 2 * (e : Real)))
        = (v0 : Int) ∧
      v0 ≤ n - 2 ∧
      (v0 : Int) * (2 * n - 1 - v0) ≤ 2 * e ∧
      2 * (e : Int) < (v0 + 1) * (2 * n - 2 - v0) ∧
      (∀ w : Nat, (w : Int) * (2 * n - 1 - w) ≤ 2 * e →
        2 * (e : Int) < (w + 1) * (2 * n - 2 - w) → w = v0) ∧
      ∃ v1, v0 < v1 ∧ v1 < n ∧ pairIndex n v0 v1 = e := by
  obtain ⟨v0, v1, h01, h1, hidx⟩ := exists_pairIndex_of_lt n e he
  obtain ⟨hlo, hhi⟩ := pairIndex_bin n v0 v1 h01 h1
  rw [hidx] at hlo hhi
  have hloR : (v0 : Real) * (2 * n - 1 - v0) ≤ 2 * e := by exact_mod_cast hlo
  have hhiR : 2 * (e : Real) < (v0 + 1) * (2 * n - 2 - v0) := by exact_mod_cast hhi
  have hv0 : (v0 : Real) + 2 ≤ n := by
    have : v0 + 2 ≤ n := by omega
    exact_mod_cast this
  have hpos : 0 < (2 * (n : Real) - 1) / 2 * ((2 * (n : Real) - 1) / 2) - 2 * (e : Real) := by
    nlinarith
  refine ⟨hpos, v0, ?_, by omega, hlo, hhi, ?_, v1, h01, h1, hidx⟩
  · rw [Int.floor_eq_iff]
    constructor
    · have hsq : Real.sqrt ((2 * (n : Real) - 1) / 2 * ((2 * (n : Real) - 1) / 2) - 2 * (e : Real))
          ≤ (2 * (n : Real) - 1) / 2 - v0 := by
        rw [Real.sqrt_le_left (by linarith)]
        nlinarith
      push_cast
      linarith
    · have hsq : (2 * (n : Real) - 1) / 2 - v0 - 1
          < Real.sqrt ((2 * (n : Real) - 1) / 2 * ((2 * (n : Real) - 1) / 2) - 2 * (e : Real)) := by
        rw [Real.lt_sqrt (by linarith)]
        nlinarith
      push_cast
      linarith
  · intro w hw1 hw2
    exact (bin_unique n e v0 w hlo hhi hw1 hw2).2

/-- C19, on three vertices at the edge `2`, the pair `(1, 2)`. -/
theorem nominal_inverse_exact_witness :
    (2 ≤ 3 ∧ 2 < 3 * (3 - 1) / 2) ∧
    0 < (2 * ((3 : Nat) : Real) - 1) / 2 * ((2 * ((3 : Nat) : Real) - 1) / 2)
      - 2 * ((2 : Nat) : Real) ∧
    ∃ v0 : Nat,
      Int.floor ((2 * ((3 : Nat) : Real) - 1) / 2
        - Real.sqrt ((2 * ((3 : Nat) : Real) - 1) / 2 * ((2 * ((3 : Nat) : Real) - 1) / 2)
          - 2 * ((2 : Nat) : Real)))
        = (v0 : Int) ∧
      v0 ≤ 3 - 2 ∧
      (v0 : Int) * (2 * (3 : Nat) - 1 - v0) ≤ 2 * (2 : Nat) ∧
      2 * ((2 : Nat) : Int) < (v0 + 1) * (2 * (3 : Nat) - 2 - v0) ∧
      (∀ w : Nat, (w : Int) * (2 * (3 : Nat) - 1 - w) ≤ 2 * (2 : Nat) →
        2 * ((2 : Nat) : Int) < (w + 1) * (2 * (3 : Nat) - 2 - w) → w = v0) ∧
      ∃ v1, v0 < v1 ∧ v1 < 3 ∧ pairIndex 3 v0 v1 = 2 :=
  ⟨⟨by decide, by decide⟩, nominal_inverse_exact 3 2 (by decide) (by decide)⟩

/-! ## The second endpoint -/

namespace CompleteGraph

variable {Visitor : Type}

/-- The value of `vertexOfEdge(e, 1)` is the expression `vertex1OfEdge` at the
value of `vertexOfEdge(e, 0)`. -/
theorem vertexOfEdge_one_eq (g : CompleteGraph Visitor) (e v0 : Nat)
    (h : g.vertexOfEdge e 0 = some v0) : g.vertexOfEdge e 1 = some (g.vertex1OfEdge e v0) := by
  unfold vertexOfEdge at h ⊢
  by_cases he : e < g.numberOfEdges
  · rw [if_neg (not_not.mpr he), if_neg (not_not.mpr (by decide : 0 < 2))] at h
    rw [if_neg (not_not.mpr he), if_neg (not_not.mpr (by decide : 1 < 2))]
    generalize (g.vertex0OfEdge e).getD F32.indefinite = w at h ⊢
    rw [if_pos rfl] at h
    rw [if_neg (by decide : ¬ (1 = 0))]
    rw [Option.some.inj h]
  · rw [if_pos he] at h
    exact absurd h (by simp only [reduceCtorEq, not_false_eq_true])

/-- The index formula does not wrap around when its product and its result are
in the range of `std::size_t`. -/
theorem edgeOfStrictlyIncreasingPairOfVertices_eq_of_lt (g : CompleteGraph Visitor) (v0 v1 : Nat)
    (hn : g.numberOfVertices_ < SizeT.modulus) (h01 : v0 < v1) (h1 : v1 < g.numberOfVertices_)
    (hA : (g.numberOfVertices_ - 1) * v0 < SizeT.modulus)
    (hP : pairIndex g.numberOfVertices_ v0 v1 + 1 < SizeT.modulus) :
    g.edgeOfStrictlyIncreasingPairOfVertices v0 v1 = some (pairIndex g.numberOfVertices_ v0 v1) := by
  obtain ⟨n, vis⟩ := g
  simp only at hn h1 hA hP
  have hT := half_mul_succ_le n v0 v1 h01 h1
  have hB : v0 * (v0 + 1) ≤ (n - 1) * v0 := by
    rw [Nat.mul_comm (n - 1) v0]
    exact Nat.mul_le_mul_left v0 (by omega)
  have hadd := pairIndex_add n v0 v1 h01 h1
  have s1 : SizeT.sub n 1 = n - 1 := SizeT.sizeT_sub_one_eq n (by omega) hn
  have s2 : SizeT.mul (n - 1) v0 = (n - 1) * v0 := SizeT.sizeT_mul_eq _ _ hA
  have s3 : SizeT.add v0 1 = v0 + 1 := SizeT.sizeT_add_eq _ _ (by omega)
  have s4 : SizeT.mul v0 (v0 + 1) = v0 * (v0 + 1) := SizeT.sizeT_mul_eq _ _ (by omega)
  have s5 : SizeT.sub ((n - 1) * v0) (v0 * (v0 + 1) / 2) = (n - 1) * v0 - v0 * (v0 + 1) / 2 :=
    SizeT.sizeT_sub_eq _ _ hT hA
  have s6 : SizeT.add ((n - 1) * v0 - v0 * (v0 + 1) / 2) v1
      = (n - 1) * v0 - v0 * (v0 + 1) / 2 + v1 :=
    SizeT.sizeT_add_eq _ _ (by omega)
  have s7 : SizeT.sub ((n - 1) * v0 - v0 * (v0 + 1) / 2 + v1) 1
      = (n - 1) * v0 - v0 * (v0 + 1) / 2 + v1 - 1 :=
    SizeT.sizeT_sub_eq _ _ (by omega) (by omega)
  simp only [edgeOfStrictlyIncreasingPairOfVertices, numberOfVertices, h1, h01, not_true_eq_false,
    if_false, s1, s2, s3, s4, s5, s6, s7, pairIndex]

end CompleteGraph

/-- C20: for an edge index `e < numberOfEdges()` and the lower endpoint `v0` of
`e`, that is `v0 * (2 * n - 1 - v0) / 2 ≤ e < (v0 + 1) * (2 * n - 2 - v0) / 2`,
the value `v1 = e + v0 * (v0 + 1) / 2 - (n - 1) * v0 + 1` that `vertexOfEdge`
returns for `j = 1` is computed without a subtraction below zero and without
wrap-around, `v0 < v1 < n`, and `edgeOfStrictlyIncreasingPairOfVertices(v0, v1)`
is `e`, again without a subtraction below zero. -/
theorem vertex1OfEdge_spec (g : CompleteGraph Visitor) (e v0 : Nat)
    (hn : g.numberOfVertices_ < SizeT.modulus) (he : e < g.numberOfEdges)
    (hlo : (v0 : Int) * (2 * g.numberOfVertices_ - 1 - v0) ≤ 2 * e)
    (hhi : 2 * (e : Int) < (v0 + 1) * (2 * g.numberOfVertices_ - 2 - v0)) :
    g.vertex1OfEdge e v0 = e + v0 * (v0 + 1) / 2 - (g.numberOfVertices_ - 1) * v0 + 1 ∧
    ((g.numberOfVertices_ - 1) * v0 ≤ e + v0 * (v0 + 1) / 2 ∧ 1 ≤ g.numberOfVertices_ ∧
      v0 * (v0 + 1) < SizeT.modulus ∧ e + v0 * (v0 + 1) / 2 < SizeT.modulus ∧
      (g.numberOfVertices_ - 1) * v0 < SizeT.modulus) ∧
    (v0 < g.vertex1OfEdge e v0 ∧ g.vertex1OfEdge e v0 < g.numberOfVertices_) ∧
    g.edgeOfStrictlyIncreasingPairOfVertices v0 (g.vertex1OfEdge e v0) = some e ∧
    (v0 * (v0 + 1) / 2 ≤ (g.numberOfVertices_ - 1) * v0 ∧
      1 ≤ (g.numberOfVertices_ - 1) * v0 - v0 * (v0 + 1) / 2 + g.vertex1OfEdge e v0) ∧
    (g.vertexOfEdge e 0 = some v0 → g.vertexOfEdge e 1 = some (g.vertex1OfEdge e v0)) := by
  have hlink := CompleteGraph.vertexOfEdge_one_eq g e v0
  obtain ⟨n, vis⟩ := g
  simp only at hn hlo hhi hlink ⊢
  have he63 : e < 9223372036854775808 := by
    have : e < SizeT.mul n (SizeT.sub n 1) / 2 := he
    unfold SizeT.mul SizeT.modulus at this
    omega
  have hvn : (v0 : Int) + 2 ≤ n := by nlinarith
  have hvn' : v0 + 2 ≤ n := by omega
  have hT2 := two_mul_half_mul_succ v0
  have hA2 : ((n - 1 : Nat) : Int) = (n : Int) - 1 := by omega
  -- the product (n - 1) * v0 is at most 2 * e
  have hAe : ((n - 1) * v0 : Nat) ≤ 2 * e := by
    have a1 : (0 : Int) ≤ v0 := by omega
    have a2 : (0 : Int) ≤ (n : Int) - v0 := by omega
    have := mul_nonneg a1 a2
    have h : (((n - 1) * v0 : Nat) : Int) ≤ 2 * e := by
      push_cast
      rw [hA2]
      nlinarith
    exact_mod_cast h
  have hB : v0 * (v0 + 1) ≤ (n - 1) * v0 := by
    rw [Nat.mul_comm (n - 1) v0]
    exact Nat.mul_le_mul_left v0 (by omega)
  -- the lower and the upper bound of the bin, over the naturals
  have hloN : (n - 1) * v0 + v0 ≤ e + v0 * (v0 + 1) / 2 := by
    have h : ((((n - 1) * v0 + v0 : Nat) : Int)) ≤ ((e + v0 * (v0 + 1) / 2 : Nat) : Int) := by
      have ht : (2 : Int) * ((v0 * (v0 + 1) / 2 : Nat) : Int) = v0 * (v0 + 1) := by
        exact_mod_cast hT2
      push_cast
      rw [hA2]
      push_cast at ht
      nlinarith
    exact_mod_cast h
  have hhiN : e + v0 * (v0 + 1) / 2 + 1 < (n - 1) * v0 + n := by
    have h : (((e + v0 * (v0 + 1) / 2 + 1 : Nat) : Int)) < (((n - 1) * v0 + n : Nat) : Int) := by
      have ht : (2 : Int) * ((v0 * (v0 + 1) / 2 : Nat) : Int) = v0 * (v0 + 1) := by
        exact_mod_cast hT2
      push_cast
      rw [hA2]
      push_cast at ht
      nlinarith
    exact_mod_cast h
  have s1 : SizeT.sub n 1 = n - 1 := SizeT.sizeT_sub_one_eq n (by omega) hn
  have s2 : SizeT.mul (n - 1) v0 = (n - 1) * v0 :=
    SizeT.sizeT_mul_eq _ _ (by unfold SizeT.modulus; omega)
  have s3 : SizeT.add v0 1 = v0 + 1 := SizeT.sizeT_add_eq _ _ (by unfold SizeT.modulus at *; omega)
  have s4 : SizeT.mul v0 (v0 + 1) = v0 * (v0 + 1) :=
    SizeT.sizeT_mul_eq _ _ (by unfold SizeT.modulus; omega)
  have s5 : SizeT.add e (v0 * (v0 + 1) / 2) = e + v0 * (v0 + 1) / 2 :=
    SizeT.sizeT_add_eq _ _ (by unfold SizeT.modulus; omega)
  have s6 : SizeT.sub (e + v0 * (v0 + 1) / 2) ((n - 1) * v0)
      = e + v0 * (v0 + 1) / 2 - (n - 1) * v0 :=
    SizeT.sizeT_sub_eq _ _ (by omega) (by unfold SizeT.modulus; omega)
  have s7 : SizeT.add (e + v0 * (v0 + 1) / 2 - (n - 1) * v0) 1
      = e + v0 * (v0 + 1) / 2 - (n - 1) * v0 + 1 :=
    SizeT.sizeT_add_eq _ _ (by unfold SizeT.modulus; omega)
  have hval : CompleteGraph.vertex1OfEdge (⟨n, vis⟩ : CompleteGraph Visitor) e v0
      = e + v0 * (v0 + 1) / 2 - (n - 1) * v0 + 1 := by
    simp only [CompleteGraph.vertex1OfEdge, CompleteGraph.numberOfVertices, s1, s2, s3, s4, s5,
      s6, s7]
  have h01 : v0 < e + v0 * (v0 + 1) / 2 - (n - 1) * v0 + 1 := by omega
  have h1 : e + v0 * (v0 + 1) / 2 - (n - 1) * v0 + 1 < n := by omega
  have hadd := pairIndex_add n v0 (e + v0 * (v0 + 1) / 2 - (n - 1) * v0 + 1) h01 h1
  have hT := half_mul_succ_le n v0 _ h01 h1
  have hidx : pairIndex n v0 (e + v0 * (v0 + 1) / 2 - (n - 1) * v0 + 1) = e := by omega
  have hedge := CompleteGraph.edgeOfStrictlyIncreasingPairOfVertices_eq_of_lt
    (⟨n, vis⟩ : CompleteGraph Visitor) v0 (e + v0 * (v0 + 1) / 2 - (n - 1) * v0 + 1) hn h01 h1
    (by simp only; unfold SizeT.modulus; omega) (by simp only; rw [hidx]; unfold SizeT.modulus; omega)
  simp only at hedge
  rw [hidx] at hedge
  rw [hval]
  refine ⟨rfl, ⟨by omega, by omega, by unfold SizeT.modulus; omega,
    by unfold SizeT.modulus; omega, by unfold SizeT.modulus; omega⟩, ⟨h01, h1⟩, hedge,
    ⟨hT, by omega⟩, ?_⟩
  intro h
  rw [← hval]
  exact hlink h

/-- C20, on four vertices at the edge `4`, whose lower endpoint is `1`. -/
theorem vertex1OfEdge_spec_witness :
    ((CompleteGraph.constructN 4 ()).numberOfVertices_ < SizeT.modulus ∧
      4 < (CompleteGraph.constructN 4 ()).numberOfEdges ∧
      ((1 : Nat) : Int) * (2 * (CompleteGraph.constructN 4 ()).numberOfVertices_ - 1 - (1 : Nat))
        ≤ 2 * (4 : Nat) ∧
      2 * ((4 : Nat) : Int)
        < ((1 : Nat) + 1) * (2 * (CompleteGraph.constructN 4 ()).numberOfVertices_ - 2 - (1 : Nat))) ∧
    (CompleteGraph.constructN 4 ()).vertex1OfEdge 4 1 = 4 + 1 * (1 + 1) / 2 - (4 - 1) * 1 + 1 ∧
    (1 < (CompleteGraph.constructN 4 ()).vertex1OfEdge 4 1 ∧
      (CompleteGraph.constructN 4 ()).vertex1OfEdge 4 1 < 4) ∧
    (CompleteGraph.constructN 4 ()).edgeOfStrictlyIncreasingPairOfVertices 1
      ((CompleteGraph.constructN 4 ()).vertex1OfEdge 4 1) = some 4 :=
  ⟨⟨by decide, by decide, by decide, by decide⟩,
    (vertex1OfEdge_spec (CompleteGraph.constructN 4 ()) 4 1
      (by decide) (by decide) (by decide) (by decide)).1,
    (vertex1OfEdge_spec (CompleteGraph.constructN 4 ()) 4 1
      (by decide) (by decide) (by decide) (by decide)).2.2.1,
    (vertex1OfEdge_spec (CompleteGraph.constructN 4 ()) 4 1
      (by decide) (by decide) (by decide) (by decide)).2.2.2.1⟩

/-! ## The calls of the private member -/

/-- Up to `2 ^ 32 + 2` vertices no subtraction of the index formula goes below
zero. -/
theorem edgeIndexSubtractionsInRange_of_le (g : CompleteGraph Visitor) (a b : Nat)
    (hn : g.numberOfVertices_ ≤ 4294967298) (hab : a < b) (hb : b < g.numberOfVertices_) :
    g.edgeIndexSubtractionsInRange a b := by
  obtain ⟨n, vis⟩ := g
  simp only at hn hb
  unfold CompleteGraph.edgeIndexSubtractionsInRange
  simp only [CompleteGraph.numberOfVertices]
  by_cases ha : a ≤ 4294967295
  · have hA : (n - 1) * a ≤ 4294967297 * 4294967295 := Nat.mul_le_mul (by omega) ha
    have hB : a * (a + 1) ≤ 4294967295 * 4294967296 := Nat.mul_le_mul ha (by omega)
    have hT := half_mul_succ_le n a b hab hb
    have hadd := pairIndex_add n a b hab hb
    have hcard := pairIndex_lt_card n a b hab hb
    have hN : n * (n - 1) ≤ 4294967298 * 4294967297 := Nat.mul_le_mul hn (by omega)
    have s1 : SizeT.sub n 1 = n - 1 :=
      SizeT.sizeT_sub_one_eq n (by omega) (by unfold SizeT.modulus; omega)
    have s2 : SizeT.mul (n - 1) a = (n - 1) * a :=
      SizeT.sizeT_mul_eq _ _ (by unfold SizeT.modulus; omega)
    have s3 : SizeT.add a 1 = a + 1 := SizeT.sizeT_add_eq _ _ (by unfold SizeT.modulus; omega)
    have s4 : SizeT.mul a (a + 1) = a * (a + 1) :=
      SizeT.sizeT_mul_eq _ _ (by unfold SizeT.modulus; omega)
    have s5 : SizeT.sub ((n - 1) * a) (a * (a + 1) / 2) = (n - 1) * a - a * (a + 1) / 2 :=
      SizeT.sizeT_sub_eq _ _ hT (by unfold SizeT.modulus; omega)
    have s6 : SizeT.add ((n - 1) * a - a * (a + 1) / 2) b = (n - 1) * a - a * (a + 1) / 2 + b :=
      SizeT.sizeT_add_eq _ _ (by unfold SizeT.modulus; omega)
    rw [s1, s2, s3, s4, s5, s6]
    exact ⟨by omega, hT, by omega⟩
  · have h1 : a = 4294967296 := by omega
    have h2 : b = 4294967297 := by omega
    have h3 : n = 4294967298 := by omega
    subst h1 h2 h3
    decide

/-- C21 (as stated, at `n = 2 ^ 32 + 3`): `findEdge(2 ^ 32 - 1, 2 ^ 32)` and
`edgeFromVertex(2 ^ 32, 2 ^ 32 - 1)` meet their preconditions and call the
private member at `(2 ^ 32 - 1, 2 ^ 32)`; there the product `(n - 1) * a` has
wrapped around to `4294967294`, below `a * (a + 1) / 2 = 9223372034707292160`,
and the subtraction goes below zero. -/
theorem edgeIndex_subtraction_underflows :
    (CompleteGraph.constructN 4294967299 ()).findEdge 4294967295 4294967296
      = some (true, 9223372047592194045) ∧
    (CompleteGraph.constructN 4294967299 ()).edgeFromVertex 4294967296 4294967295
      = some 9223372047592194045 ∧
    (CompleteGraph.constructN 4294967299 ()).adjacencyFromVertex 4294967296 4294967295
      = some ⟨4294967295, 9223372047592194045⟩ ∧
    SizeT.mul (SizeT.sub (CompleteGraph.constructN 4294967299 ()).numberOfVertices 1) 4294967295
      = 4294967294 ∧
    SizeT.mul 4294967295 (SizeT.add 4294967295 1) / 2 = 9223372034707292160 ∧
    ¬ (CompleteGraph.constructN 4294967299 ()).edgeIndexSubtractionsInRange
      4294967295 4294967296 := by
  decide

/-- C21 (amended): when the public preconditions hold, every call that
`edgeFromVertex`, `adjacencyFromVertex` and `findEdge` make to
`edgeOfStrictlyIncreasingPairOfVertices(a, b)` has `a < b` and `b < n`, so
neither of its assertions fails and a value is returned (`findEdge(v, v)` makes
no call); up to `2 ^ 32 + 2` vertices no unsigned subtraction of the expression
goes below zero. -/
theorem helper_calls_in_range (g : CompleteGraph Visitor)
    (hn : g.numberOfVertices_ < SizeT.modulus) :
    (∀ v j, v < g.numberOfVertices_ → j < g.numberOfVertices_ - 1 →
      ∃ a b, (a, b) = (if j < v then (j, v) else (v, j + 1)) ∧ a < b ∧ b < g.numberOfVertices_ ∧
        g.edgeFromVertex v j = g.edgeOfStrictlyIncreasingPairOfVertices a b ∧
        g.adjacencyFromVertex v j
          = (g.edgeOfStrictlyIncreasingPairOfVertices a b).map
              (fun e => ⟨if j < v then j else j + 1, e⟩) ∧
        (∃ e, g.edgeOfStrictlyIncreasingPairOfVertices a b = some e) ∧
        (g.numberOfVertices_ ≤ 4294967298 → g.edgeIndexSubtractionsInRange a b)) ∧
    (∀ v0 v1, v0 < g.numberOfVertices_ → v1 < g.numberOfVertices_ → v0 ≠ v1 →
      ∃ a b, (a, b) = (min v0 v1, max v0 v1) ∧ a < b ∧ b < g.numberOfVertices_ ∧
        g.findEdge v0 v1 = (g.edgeOfStrictlyIncreasingPairOfVertices a b).map (fun e => (true, e)) ∧
        (∃ e, g.edgeOfStrictlyIncreasingPairOfVertices a b = some e) ∧
        (g.numberOfVertices_ ≤ 4294967298 → g.edgeIndexSubtractionsInRange a b)) ∧
    (∀ v, v < g.numberOfVertices_ → g.findEdge v v = some (false, 0)) := by
  refine ⟨?_, ?_, ?_⟩
  · intro v j hv hj
    have he := CompleteGraph.edgeFromVertex_eq g v j hn hv hj
    have ha := CompleteGraph.adjacencyFromVertex_eq g v j hn hv hj
    by_cases hjv : j < v
    · rw [if_pos hjv] at he ha
      refine ⟨j, v, by rw [if_pos hjv], hjv, hv, he, ?_,
        CompleteGraph.edgeOfStrictlyIncreasingPairOfVertices_isSome g j v hjv hv,
        fun h => edgeIndexSubtractionsInRange_of_le g j v h hjv hv⟩
      rw [ha]
      simp only [if_pos hjv]
    · rw [if_neg hjv] at he ha
      refine ⟨v, j + 1, by rw [if_neg hjv], by omega, by omega, he, ?_,
        CompleteGraph.edgeOfStrictlyIncreasingPairOfVertices_isSome g v (j + 1) (by omega)
          (by omega),
        fun h => edgeIndexSubtractionsInRange_of_le g v (j + 1) h (by omega) (by omega)⟩
      rw [ha]
      simp only [if_neg hjv]
  · intro v0 v1 h0 h1 hne
    rcases Nat.lt_or_gt_of_ne hne with h | h
    · refine ⟨v0, v1, by rw [min_eq_left h.le, max_eq_right h.le], h, h1,
        CompleteGraph.findEdge_of_lt g v0 v1 h h1,
        CompleteGraph.edgeOfStrictlyIncreasingPairOfVertices_isSome g v0 v1 h h1,
        fun hle => edgeIndexSubtractionsInRange_of_le g v0 v1 hle h h1⟩
    · refine ⟨v1, v0, by rw [min_eq_right h.le, max_eq_left h.le], h, h0,
        CompleteGraph.findEdge_of_gt g v0 v1 h h0,
        CompleteGraph.edgeOfStrictlyIncreasingPairOfVertices_isSome g v1 v0 h h0,
        fun hle => edgeIndexSubtractionsInRange_of_le g v1 v0 hle h h0⟩
  · intro v hv
    simp [CompleteGraph.findEdge, CompleteGraph.numberOfVertices, hv]

/-- C21 (amended), on four vertices: the call of `findEdge(3, 1)`. -/
theorem helper_calls_in_range_witness :
    (CompleteGraph.constructN 4 ()).numberOfVertices_ < SizeT.modulus ∧
    ∃ a b, (a, b) = (min 3 1, max 3 1) ∧ a < b ∧ b < 4 ∧
      (CompleteGraph.constructN 4 ()).findEdge 3 1
        = ((CompleteGraph.constructN 4 ()).edgeOfStrictlyIncreasingPairOfVertices a b).map
            (fun e => (true, e)) ∧
      (∃ e, (CompleteGraph.constructN 4 ()).edgeOfStrictlyIncreasingPairOfVertices a b = some e) ∧
      ((CompleteGraph.constructN 4 ()).numberOfVertices_ ≤ 4294967298 →
        (CompleteGraph.constructN 4 ()).edgeIndexSubtractionsInRange a b) :=
  ⟨by decide,
    (helper_calls_in_range (CompleteGraph.constructN 4 ()) (by decide)).2.1 3 1
      (by decide) (by decide) (by decide)⟩

/-! ## The order of the edges along a range -/

theorem edgeFromVertex_eq_pairIndex (g : CompleteGraph Visitor) (v j : Nat)
    (hn : g.numberOfVertices_ ≤ 4294967297) (hv : v < g.numberOfVertices_)
    (hj : j < g.numberOfVertices_ - 1) :
    g.edgeFromVertex v j
      = some (if j < v then pairIndex g.numberOfVertices_ j v
          else pairIndex g.numberOfVertices_ v (j + 1)) := by
  rw [CompleteGraph.edgeFromVertex_eq g v j (by unfold SizeT.modulus; omega) hv hj]
  by_cases hjv : j < v
  · rw [if_pos hjv, if_pos hjv]
    exact CompleteGraph.edgeOfStrictlyIncreasingPairOfVertices_eq g j v hn hjv hv
  · rw [if_neg hjv, if_neg hjv]
    exact CompleteGraph.edgeOfStrictlyIncreasingPairOfVertices_eq g v (j + 1) hn (by omega)
      (by omega)

theorem rankIndex_lt (n v j k : Nat) (hv : v < n) (hjk : j < k) (hk : k < n - 1) :
    (if j < v then pairIndex n j v else pairIndex n v (j + 1))
      < (if k < v then pairIndex n k v else pairIndex n v (k + 1)) := by
  by_cases hjv : j < v
  · by_cases hkv : k < v
    · rw [if_pos hjv, if_pos hkv]
      exact pairIndex_lt_of_lexLt n j v k v hjv hv hkv hv (Or.inl hjk)
    · rw [if_pos hjv, if_neg hkv]
      exact pairIndex_lt_of_lexLt n j v v (k + 1) hjv hv (by omega) (by omega) (Or.inl hjv)
  · have hkv : ¬ k < v := by omega
    rw [if_neg hjv, if_neg hkv]
    exact pairIndex_lt_of_lexLt n v (j + 1) v (k + 1) (by omega) (by omega) (by omega) (by omega)
      (Or.inr ⟨rfl, by omega⟩)

theorem iterate_edge_preIncrement (this v k : Nat) (hk : k < SizeT.modulus) :
    EdgeIterator.preIncrement^[k] ⟨⟨this, v, 0⟩⟩ = ⟨⟨this, v, k⟩⟩ := by
  induction k with
  | zero => rfl
  | succ k ih =>
    rw [Function.iterate_succ_apply', ih (by omega)]
    simp only [EdgeIterator.preIncrement, AdjacencyIterator.preIncrement,
      SizeT.sizeT_add_eq k 1 hk]

/-- C22 (as stated, at `n = 2 ^ 32 + 2`): for the vertex `v = 2 ^ 32 + 1` the
ranks `j = 2 ^ 32 - 1 < k = 2 ^ 32 < n - 1` give
`edgeFromVertex(v, j) = 9223372043297226751` and
`edgeFromVertex(v, k) = 6442450944`: the index formula has wrapped around at the
rank `k` and the edge indices do not ascend. -/
theorem edgeFromVertex_not_ascending :
    (4294967297 < (CompleteGraph.constructN 4294967298 ()).numberOfVertices ∧
      4294967295 < 4294967296 ∧
      4294967296 < (CompleteGraph.constructN 4294967298 ()).numberOfVertices - 1) ∧
    (CompleteGraph.constructN 4294967298 ()).edgeFromVertex 4294967297 4294967295
      = some 9223372043297226751 ∧
    (CompleteGraph.constructN 4294967298 ()).edgeFromVertex 4294967297 4294967296
      = some 6442450944 ∧
    ¬ 9223372043297226751 < 6442450944 := by
  decide

/-- C22 (amended): up to `2 ^ 32 + 1` vertices, for a vertex `v < n` and ranks
`j < k < n - 1`, `edgeFromVertex(v, j) < edgeFromVertex(v, k)`, in particular
across the switch from the pair `(v - 1, v)` at the rank `v - 1` to the pair
`(v, v + 1)` at the rank `v`; so the `EdgeIterator` range of `v`, from
`edgesFromVertexBegin(v)` by `n - 1` increments to `edgesFromVertexEnd(v)`,
yields `n - 1` edge indices, strictly increasing and distinct. -/
theorem edgeFromVertex_strictly_increasing (heap : Heap Visitor) (g : CompleteGraph Visitor)
    (this v : Nat) (hn : g.numberOfVertices_ ≤ 4294967297) (hload : heap.load this = some g)
    (hv : v < g.numberOfVertices_) :
    (∀ j k, j < k → k < g.numberOfVertices_ - 1 →
      ∃ e e', g.edgeFromVertex v j = some e ∧ g.edgeFromVertex v k = some e' ∧ e < e') ∧
    (∀ j, j + 1 = v → v < g.numberOfVertices_ - 1 →
      ∃ e e', g.edgeFromVertex v j = some e ∧ g.edgeFromVertex v v = some e' ∧
        g.edgeOfStrictlyIncreasingPairOfVertices j v = some e ∧
        g.edgeOfStrictlyIncreasingPairOfVertices v (v + 1) = some e' ∧ e < e') ∧
    (∃ first, CompleteGraph.edgesFromVertexBegin heap this v = some first ∧
      CompleteGraph.edgesFromVertexEnd heap this v
        = some (EdgeIterator.preIncrement^[g.numberOfVertices_ - 1] first) ∧
      ∃ l : List Nat,
        (List.range (g.numberOfVertices_ - 1)).map
            (fun j => (EdgeIterator.preIncrement^[j] first).deref heap) = l.map some ∧
        l.length = g.numberOfVertices_ - 1 ∧ l.Pairwise (fun e e' => e < e') ∧ l.Nodup) := by
  have hn' : g.numberOfVertices_ < SizeT.modulus := by unfold SizeT.modulus; omega
  refine ⟨?_, ?_, ?_⟩
  · intro j k hjk hk
    exact ⟨_, _, edgeFromVertex_eq_pairIndex g v j hn hv (by omega),
      edgeFromVertex_eq_pairIndex g v k hn hv hk,
      rankIndex_lt g.numberOfVertices_ v j k hv hjk hk⟩
  · intro j hj hlt
    have h1 := edgeFromVertex_eq_pairIndex g v j hn hv (by omega)
    have h2 := edgeFromVertex_eq_pairIndex g v v hn hv hlt
    have h3 := rankIndex_lt g.numberOfVertices_ v j v hv (by omega) hlt
    rw [if_pos (by omega : j < v)] at h1 h3
    rw [if_neg (lt_irrefl v)] at h2 h3
    exact ⟨_, _, h1, h2,
      CompleteGraph.edgeOfStrictlyIncreasingPairOfVertices_eq g j v hn (by omega) hv,
      CompleteGraph.edgeOfStrictlyIncreasingPairOfVertices_eq g v (v + 1) hn (by omega)
        (by omega), h3⟩
  · have hfrom := CompleteGraph.numberOfEdgesFromVertex_eq g v hn' hv
    have hb := ofVertexIndex_eq heap g this v 0 hload hv (by omega)
    have he := ofVertexIndex_eq heap g this v (g.numberOfVertices_ - 1) hload hv (by omega)
    refine ⟨⟨⟨this, v, 0⟩⟩, ?_, ?_, ?_⟩
    · simp [CompleteGraph.edgesFromVertexBegin, EdgeIterator.ofVertexIndex, hb]
    · rw [iterate_edge_preIncrement this v _ (by omega)]
      simp [CompleteGraph.edgesFromVertexEnd, EdgeIterator.ofVertexIndex, hload, hfrom, he]
    · have hpw : ((List.range (g.numberOfVertices_ - 1)).map
          (fun j => if j < v then pairIndex g.numberOfVertices_ j v
            else pairIndex g.numberOfVertices_ v (j + 1))).Pairwise (fun e e' => e < e') := by
        rw [List.pairwise_map]
        refine List.Pairwise.imp_of_mem ?_ (List.pairwise_lt_range _)
        intro a b _ hbm hab
        exact rankIndex_lt g.numberOfVertices_ v a b hv hab (List.mem_range.mp hbm)
      refine ⟨(List.range (g.numberOfVertices_ - 1)).map
        (fun j => if j < v then pairIndex g.numberOfVertices_ j v
          else pairIndex g.numberOfVertices_ v (j + 1)), ?_, ?_, hpw, ?_⟩
      · rw [List.map_map]
        refine List.map_congr_left ?_
        intro j hj
        have hj' := List.mem_range.mp hj
        rw [iterate_edge_preIncrement this v j (by omega)]
        simp only [EdgeIterator.deref, hload, Function.comp]
        exact edgeFromVertex_eq_pairIndex g v j hn hv hj'
      · simp
      · exact hpw.imp (fun h => Nat.ne_of_lt h)

/-- C22 (amended), on four vertices for the graph at the address `1` and the
vertex `1`: the ranks `0 < 1 < 2 < n - 1 = 3` give the edges `0 < 3 < 4`. -/
theorem edgeFromVertex_strictly_increasing_witness :
    ((CompleteGraph.constructN 4 ()).numberOfVertices_ ≤ 4294967297 ∧
      (Heap.single 1 (CompleteGraph.constructN 4 ())).load 1 = some (CompleteGraph.constructN 4 ()) ∧
      1 < (CompleteGraph.constructN 4 ()).numberOfVertices_) ∧
    (CompleteGraph.constructN 4 ()).edgeFromVertex 1 0 = some 0 ∧
    (CompleteGraph.constructN 4 ()).edgeFromVertex 1 1 = some 3 ∧
    (CompleteGraph.constructN 4 ()).edgeFromVertex 1 2 = some 4 ∧
    ∀ j k, j < k → k < (CompleteGraph.constructN 4 ()).numberOfVertices_ - 1 →
      ∃ e e', (CompleteGraph.constructN 4 ()).edgeFromVertex 1 j = some e ∧
        (CompleteGraph.constructN 4 ()).edgeFromVertex 1 k = some e' ∧ e < e' :=
  ⟨⟨by decide, rfl, by decide⟩, by decide, by decide, by decide,
    (edgeFromVertex_strictly_increasing (Heap.single 1 (CompleteGraph.constructN 4 ()))
      (CompleteGraph.constructN 4 ()) 1 1 (by decide) rfl (by decide)).1⟩

end Andres
